import Mathlib

/-!
Shallow embedding of the margin-risk engine of `src/liquidator/margin_utils.rs`
(with `src/liquidator/utils.rs` supplying the oracle lookup).

Conventions of the embedding:

* Rust `i64`/`i128`/`u16` values are modelled as `Int`/`Nat` together with
  explicit range checks exactly where the source checks (the `safe_*` helpers
  of the crate's `math` module) or where the source can panic (bare
  arithmetic, `unwrap`, casts).  A Rust panic (failed `unwrap`, overflow of a
  bare arithmetic operation under the debug profile, index out of bounds,
  division by zero on a primitive) is modelled as the distinguished outcome
  `Err.trap`: it aborts the whole call without producing one of the taxonomy
  errors.
* `fixed::types::I80F48` values are modelled by their raw bit pattern, an
  `Int` denoting `bits / 2^48`, range `[-2^127, 2^127)`.
* The crate's `math` module (`safe_add`, `safe_sub`, `safe_mul`, `safe_div`,
  `safe_mul_i80f48`, `safe_add_i80f48`) is not part of the provided sources;
  those helpers are modelled from the spec (§4.1): checked operations that
  fail with `Overflow` / `DivisionByZero`.
-/

namespace ZoKeeper

/-- Error outcomes of a call.  `overflow`, `divisionByZero`,
`priceUnavailable` and `noPositions` are the `ErrorCode` taxonomy values the
spec names; `trap` models a Rust panic (failed `unwrap`, checked bare
arithmetic, out-of-range cast), which aborts the call without yielding a
taxonomy error. -/
inductive Err where
  | overflow
  | divisionByZero
  | priceUnavailable
  | noPositions
  | trap
deriving DecidableEq, Repr

/-- Result of a fallible computation, as in the source's `Result<_, ErrorCode>`. -/
abbrev Res (α : Type) := Except Err α

deriving instance DecidableEq for Except

/-- Lower bound of `i64`. -/
def i64Min : Int := -(2 ^ 63)

/-- Upper bound of `i64`. -/
def i64Max : Int := 2 ^ 63 - 1

/-- Whether an integer fits in `i64`. -/
def inI64 (x : Int) : Bool := decide (i64Min ≤ x) && decide (x ≤ i64Max)

/-- Lower bound of `i128` (also of the `I80F48` bit pattern). -/
def i128Min : Int := -(2 ^ 127)

/-- Upper bound of `i128` (also of the `I80F48` bit pattern). -/
def i128Max : Int := 2 ^ 127 - 1

/-- Whether an integer fits in `i128`. -/
def inI128 (x : Int) : Bool := decide (i128Min ≤ x) && decide (x ≤ i128Max)

/-- Return `x` when it fits in `i64`, otherwise the error `e`. -/
def i64chk (x : Int) (e : Err) : Res Int :=
  if inI64 x then .ok x else .error e

/-- Return `x` when it fits in `i128`, otherwise the error `e`. -/
def i128chk (x : Int) (e : Err) : Res Int :=
  if inI128 x then .ok x else .error e

/-- Modelled from the spec: checked `i64` addition of the missing `math`
module; overflow yields `Overflow` (§4.1). -/
def safe_add (a b : Int) : Res Int := i64chk (a + b) .overflow

/-- Modelled from the spec: checked `i64` subtraction (§4.1). -/
def safe_sub (a b : Int) : Res Int := i64chk (a - b) .overflow

/-- Modelled from the spec: checked `i64` multiplication (§4.1). -/
def safe_mul (a b : Int) : Res Int := i64chk (a * b) .overflow

/-- Modelled from the spec: checked `i128` subtraction (§4.1). -/
def safe_sub_i128 (a b : Int) : Res Int := i128chk (a - b) .overflow

/-- Modelled from the spec: checked `i128` multiplication (§4.1). -/
def safe_mul_i128 (a b : Int) : Res Int := i128chk (a * b) .overflow

/-- Modelled from the spec: checked `i128` division of the missing `math`
module.  The spec fixes the rounding of the one call site that divides
(§4.3 step 1: `unrealizedFunding = floor(...)`), so the quotient is the
floor (`Int.fdiv`, rounding toward minus infinity). -/
def safe_div_i128 (a b : Int) : Res Int :=
  if b = 0 then .error .divisionByZero else i128chk (Int.fdiv a b) .overflow

/-- Modelled from the spec: checked `u16` division, `DivisionByZero` on a
zero divisor (§4.1); Rust integer division of nonnegative values truncates,
i.e. `Nat` division. -/
def safe_div_u16 (a b : Nat) : Res Nat :=
  if b = 0 then .error .divisionByZero else .ok (a / b)

/-- Modelled from the spec: checked `u16` multiplication (§4.1). -/
def safe_mul_u16 (a b : Nat) : Res Nat :=
  if a * b < 65536 then .ok (a * b) else .error .overflow

/-- Bare (unchecked in the source) `i64` addition: a Rust `+` that panics on
overflow under the debug profile.  Modelled as a trap on overflow. -/
def i64_add_trap (a b : Int) : Res Int := i64chk (a + b) .trap

/-- Bare `i64` subtraction, trapping on overflow. -/
def i64_sub_trap (a b : Int) : Res Int := i64chk (a - b) .trap

/-- Rust `i64::abs`, which panics at `i64::MIN`. -/
def i64_abs (x : Int) : Res Int :=
  if x = i64Min then .error .trap else .ok |x|

/-- The `u64 as i64` cast (two's-complement reinterpretation). -/
def i64_of_u64 (n : Nat) : Int :=
  let m : Nat := n % 2 ^ 64
  if m < 2 ^ 63 then (m : Int) else (m : Int) - 2 ^ 64

/-- Rust `i128 -> i64` `try_into().unwrap()`: traps outside the `i64` range. -/
def i128_to_i64 (x : Int) : Res Int := i64chk x .trap

/-- Scale factor of `I80F48`: 48 fractional bits. -/
def fxScale : Int := 2 ^ 48

/-- `I80F48::from_num` of an integer: exact, bits are the integer shifted. -/
def fxFromInt (n : Int) : Int := n * fxScale

/-- Product of two `I80F48` bit patterns, before the range check.  All
products reaching a claim proved in this file have one integer operand and
are exact, so the rounding direction of an inexact product is immaterial
here; it is written as floor. -/
def fxMulBits (a b : Int) : Int := Int.fdiv (a * b) fxScale

/-- Modelled from the spec: `safe_mul_i80f48` of the missing `math` module,
a widening fixed-point multiply that fails on overflow (§4.1).  Its callers
in `margin_utils.rs` use the product directly (not as a `Result`), so the
failure is a trap. -/
def safe_mul_i80f48 (a b : Int) : Res Int := i128chk (fxMulBits a b) .trap

/-- Modelled from the spec: `safe_add_i80f48`, fixed-point addition failing
on overflow; used bare by its callers, so failure is a trap. -/
def fx_add_trap (a b : Int) : Res Int := i128chk (a + b) .trap

/-- `I80F48::floor().to_num::<i64>()` before the range check: the integer
below the value, i.e. the floor of `bits / 2^48`. -/
def fxFloorToInt (x : Int) : Int := Int.fdiv x fxScale

/-- `I80F48::ceil().to_num::<i64>()` before the range check: the integer
above the value. -/
def fxCeilToInt (x : Int) : Int := -(Int.fdiv (-x) fxScale)

/-- The `to_num::<i64>` conversion, trapping outside the `i64` range. -/
def fxToI64 (x : Int) : Res Int := i64chk x .trap

/-- `I80F48::checked_div(..).unwrap()`: traps on a zero divisor or an
out-of-range quotient.  Result bits of `a / b` are `(a * 2^48) / b`; the
rounding of an inexact quotient is immaterial to the claims proved here and
is written as floor. -/
def fx_checked_div (a b : Int) : Res Int :=
  if b = 0 then .error .trap else i128chk (Int.fdiv (a * fxScale) b) .trap

/-- Rust `Option::unwrap`: traps on `none`. -/
def option_unwrap {α : Type} : Option α → Res α
  | some a => .ok a
  | none => .error .trap

/-- Rust `Result::unwrap`: propagates the value, traps on any error. -/
def res_unwrap {α : Type} : Res α → Res α
  | .ok a => .ok a
  | .error _ => .error .trap

/-! Data model (`zo_abi` account views, as consumed by `margin_utils.rs`).
Fixed-capacity arrays (`[T; 50]`, `[T; 25]`) are modelled as functions from
the index; the iteration bounds are made explicit at each loop. -/

/-- Capacity of the per-market arrays (`MAX_MARKETS`). -/
def MAX_MARKETS : Nat := 50

/-- Capacity of the per-collateral arrays (`MAX_COLLATERALS`). -/
def MAX_COLLATERALS : Nat := 25

/-- Protocol-wide spot Initial margin requirement constant of `zo_abi`
(permille of permille): `1_100_000`, i.e. a 1.1 ratio.  The value is taken
from the `zo_abi` dependency (not under `src/`); it is corroborated by the
`1.1f32 / weight` expression in the commented-out block of
`estimate_spot_liquidation_size`. -/
def SPOT_INITIAL_MARGIN_REQ : Nat := 1100000

/-- Protocol-wide spot Maintenance margin requirement constant of `zo_abi`:
`1_030_000`, i.e. a 1.03 ratio. -/
def SPOT_MAINT_MARGIN_REQ : Nat := 1030000

/-- One `OpenOrdersInfo` aggregate of a `Control` account.  `keyIsDefault`
models `key == Pubkey::default()` (the empty-slot sentinel); coin amounts
are `u64`, the rest `i64`/`i128`. -/
structure OpenOrdersInfo where
  keyIsDefault : Bool := true
  posSize : Int := 0
  nativePcTotal : Int := 0
  realizedPnl : Int := 0
  coinOnBids : Nat := 0
  coinOnAsks : Nat := 0
  fundingIndex : Int := 0
deriving DecidableEq, Repr

/-- Per-market protocol configuration (`PerpMarketInfo`): decimals of the
base asset and the base initial margin factor (`u16`, permille). -/
structure PerpMarketInfo where
  assetDecimals : Nat := 0
  baseImf : Nat := 0
deriving DecidableEq, Repr

/-- Per-asset protocol configuration (`CollateralInfo`): oracle symbol,
collateral weight (`u16`, permille) and the empty-slot flag
(`CollateralInfo::is_empty`). -/
structure CollateralInfo where
  oracleSymbol : Nat := 0
  weight : Nat := 0
  isEmptyInfo : Bool := true
deriving DecidableEq, Repr

/-- Per-asset accrued-interest multipliers of the borrow cache
(`I80F48` bits). -/
structure BorrowCache where
  supplyMultiplier : Int := fxFromInt 1
  borrowMultiplier : Int := fxFromInt 1
deriving DecidableEq, Repr

/-- One oracle entry: symbol and price (`I80F48` bits). -/
structure OracleCache where
  symbol : Nat := 0
  price : Int := 0
deriving DecidableEq, Repr

/-- The nil symbol (`Symbol::is_nil`), which never resolves to an oracle. -/
def nilSymbol : Nat := 0

/-- The `Cache` account: oracle table, mark prices, funding indices and the
borrow cache.  `marks i` is `cache.marks[i].price` as `I80F48` bits;
`fundingCache i` is the `i128` funding index of market `i`. -/
structure Cache where
  oracles : List OracleCache := []
  marks : Nat → Int := fun _ => 0
  fundingCache : Nat → Int := fun _ => 0
  borrowCache : Nat → BorrowCache := fun _ => {}

/-- A `Margin` account: raw collateral balances (`I80F48` bits per slot). -/
structure Margin where
  collateral : Nat → Int := fun _ => 0

/-- The `State` account fields consumed by this module: the active
collateral count and the per-asset configuration table. -/
structure State where
  totalCollaterals : Nat := 0
  collaterals : Nat → CollateralInfo := fun _ => {}

/-- The fraction type requested of a margin check. -/
inductive FractionType where
  | initial
  | maintenance
  | cancel
deriving DecidableEq, Repr

/-- Which margin factors an aggregation pass should produce
(`MfReturnOption`). -/
inductive MfReturnOption where
  | imf
  | mmf
  | cancel
  | both
deriving DecidableEq, Repr

/-- `get_oracle` of `utils.rs`: a nil symbol has no oracle; otherwise the
sorted oracle table is searched by exact symbol (the source's binary search
by key, modelled as lookup by exact symbol match). -/
def get_oracle (cache : Cache) (s : Nat) : Option OracleCache :=
  if s = nilSymbol then none
  else cache.oracles.find? (fun o => o.symbol == s)

/-- `calc_acc_val`: one position's contribution to the running account
value.  A zero-size position contributes only its realized P&L (the
source's bare `i64` add, trapping on overflow); otherwise funding is
settled (floor division by `10i64.pow(decimals)`, whose bare `i64` power
traps on overflow) and the unrealized P&L is the floored mark value of the
position against its quote balance. -/
def calc_acc_val (collateral smolMarkPrice posSize nativePcTotal realizedPnl
    currentFundingIndex marketFundingIndex : Int) (coinDecimals : Nat) :
    Res Int :=
  if posSize = 0 then
    i64_add_trap collateral realizedPnl
  else do
  let fundingDiff ← safe_sub_i128 marketFundingIndex currentFundingIndex
  let fprod ← safe_mul_i128 posSize (-fundingDiff)
  let divisor ← i64chk ((10 : Int) ^ coinDecimals) .trap
  let fquot ← safe_div_i128 fprod divisor
  let unrealizedFunding ← i128_to_i64 fquot
  let unrealizedPnl ←
    if 0 < posSize then do
      let prod ← safe_mul_i80f48 (fxFromInt posSize) smolMarkPrice
      let pos ← fxToI64 (fxFloorToInt prod)
      safe_sub pos (-nativePcTotal)
    else do
      let prod ← safe_mul_i80f48 (fxFromInt (-posSize)) smolMarkPrice
      let bor ← fxToI64 (fxFloorToInt prod)
      safe_sub nativePcTotal bor
  let s1 ← i64_add_trap collateral realizedPnl
  let s2 ← i64_add_trap s1 unrealizedPnl
  i64_add_trap s2 unrealizedFunding

/-- Accumulator of `get_perp_acc_params`. -/
structure PerpAccParams where
  totalAccValue : Int
  hasOpenPosNotional : Bool
  totalRealizedPnl : Int
  pimfVec : List Nat
  pmmfVec : List Nat
  pcmfVec : List Nat
  posOpenNotionalVec : List Int
  posNotionalVec : List Int
deriving DecidableEq, Repr

/-- The loop body of `get_perp_acc_params` at market `index`. -/
def perp_step (ooAgg : Nat → OpenOrdersInfo) (marks fundingCache : Nat → Int)
    (pm : Nat → PerpMarketInfo) (ro : MfReturnOption)
    (st : PerpAccParams) (index : Nat) : Res PerpAccParams := do
  let oo := ooAgg index
  if oo.keyIsDefault then
    return st
  let mark := marks index
  let newAccVal ← calc_acc_val st.totalAccValue mark oo.posSize
    oo.nativePcTotal oo.realizedPnl oo.fundingIndex (fundingCache index)
    (pm index).assetDecimals
  let aSize ← i64_abs oo.posSize
  let pnProd ← safe_mul_i80f48 (fxFromInt aSize) mark
  let posNotional ← fxToI64 (fxCeilToInt pnProd)
  let tBid ← i64_add_trap oo.posSize (i64_of_u64 oo.coinOnBids)
  let aBid ← i64_abs tBid
  let tAsk ← i64_sub_trap oo.posSize (i64_of_u64 oo.coinOnAsks)
  let aAsk ← i64_abs tAsk
  let poProd ← safe_mul_i80f48 (fxFromInt (max aBid aAsk)) mark
  let posOpenNotional ← fxToI64 (fxCeilToInt poProd)
  let hasOpen := st.hasOpenPosNotional || decide (0 < posOpenNotional)
  let baseImf := (pm index).baseImf
  let vecs ← (match ro with
    | .mmf => do
        let m ← safe_div_u16 baseImf 2
        pure (st.pimfVec, st.pmmfVec ++ [m], st.pcmfVec)
    | .imf => pure (st.pimfVec ++ [baseImf], st.pmmfVec, st.pcmfVec)
    | .cancel => do
        let c5 ← safe_mul_u16 baseImf 5
        let c ← safe_div_u16 c5 8
        pure (st.pimfVec, st.pmmfVec, st.pcmfVec ++ [c])
    | .both => do
        let m ← safe_div_u16 baseImf 2
        pure (st.pimfVec ++ [baseImf], st.pmmfVec ++ [m], st.pcmfVec) :
    Res (List Nat × List Nat × List Nat))
  let trp ← safe_add st.totalRealizedPnl oo.realizedPnl
  return { totalAccValue := newAccVal
           hasOpenPosNotional := hasOpen
           totalRealizedPnl := trp
           pimfVec := vecs.1
           pmmfVec := vecs.2.1
           pcmfVec := vecs.2.2
           posOpenNotionalVec := st.posOpenNotionalVec ++ [posOpenNotional]
           posNotionalVec := st.posNotionalVec ++ [posNotional] }

/-- Initial accumulator of `get_perp_acc_params`, seeded with the weighted
collateral value. -/
def perpInit (col : Int) : PerpAccParams :=
  { totalAccValue := col
    hasOpenPosNotional := false
    totalRealizedPnl := 0
    pimfVec := []
    pmmfVec := []
    pcmfVec := []
    posOpenNotionalVec := []
    posNotionalVec := [] }

/-- `get_perp_acc_params`: fold of `perp_step` over the active markets (the
source iterates the 50-slot array and breaks at `max_markets`). -/
def get_perp_acc_params (col : Int) (ro : MfReturnOption) (maxMarkets : Nat)
    (ooAgg : Nat → OpenOrdersInfo) (marks : Nat → Int)
    (pm : Nat → PerpMarketInfo) (fundingCache : Nat → Int) :
    Res PerpAccParams :=
  (List.range (min maxMarkets MAX_MARKETS)).foldlM
    (perp_step ooAgg marks fundingCache pm ro) (perpInit col)

/-- `calc_actual_collateral`: interest accrual, supply multiplier for a
positive balance and borrow multiplier otherwise. -/
def calc_actual_collateral (initialCol supplyMultiplier borrowMultiplier :
    Int) : Res Int :=
  if 0 < initialCol then safe_mul_i80f48 initialCol supplyMultiplier
  else safe_mul_i80f48 initialCol borrowMultiplier

/-- The spot margin factor computed inside `get_spot_borrows`:
`(REQ as u32 / weight as u32) as u16 - 1000u16`.  A zero weight makes the
primitive division panic; the `as u16` cast truncates mod `2^16`; the
`u16` subtraction panics (debug profile) when the quotient is below 1000.
The division is the truncating Rust `/`, i.e. floor on these nonnegative
operands. -/
def spot_margin_factor (req weight : Nat) : Res Nat :=
  if weight = 0 then .error .trap
  else
    let q := req / weight % 65536
    if q < 1000 then .error .trap else .ok (q - 1000)

/-- Accumulator of `get_spot_borrows`: open-exposure flag, Initial factor
vector, Maintenance factor vector, notional vector. -/
abbrev SpotAcc := Bool × List Nat × List Nat × List Int

/-- The loop body of `get_spot_borrows` at collateral index `depIndex`.
Nonnegative raw balances are skipped; index 0 receives the accumulated
realized P&L before pricing; a missing oracle is `unwrap`ped (trap).  The
factor arm for `MfReturnOption::Both` is the source's wildcard arm, which
produces no factor entries. -/
def spot_step (colArr : Nat → Int) (colInfoArr : Nat → CollateralInfo)
    (cache : Cache) (totalRealizedPnl : Int) (ro : MfReturnOption)
    (st : SpotAcc) (depIndex : Nat) : Res SpotAcc := do
  if 0 ≤ colArr depIndex then
    return st
  let borInfo := cache.borrowCache depIndex
  let dep0 ← calc_actual_collateral (colArr depIndex)
    borInfo.supplyMultiplier borInfo.borrowMultiplier
  let dep ← (if depIndex = 0 then
      fx_add_trap dep0 (fxFromInt totalRealizedPnl)
    else pure dep0 : Res Int)
  let oracle ← option_unwrap (get_oracle cache (colInfoArr depIndex).oracleSymbol)
  let prod ← safe_mul_i80f48 oracle.price (-dep)
  let posNotional ← fxToI64 (fxCeilToInt prod)
  let hasOpen := st.1 || decide (0 < posNotional)
  let facs ← (match ro with
    | .imf => do
        let f ← spot_margin_factor SPOT_INITIAL_MARGIN_REQ (colInfoArr depIndex).weight
        pure (st.2.1 ++ [f], st.2.2.1)
    | .mmf => do
        let f ← spot_margin_factor SPOT_MAINT_MARGIN_REQ (colInfoArr depIndex).weight
        pure (st.2.1, st.2.2.1 ++ [f])
    | .cancel => do
        let f ← spot_margin_factor SPOT_INITIAL_MARGIN_REQ (colInfoArr depIndex).weight
        pure (st.2.1 ++ [f], st.2.2.1)
    | .both => pure (st.2.1, st.2.2.1) : Res (List Nat × List Nat))
  return (hasOpen, facs.1, facs.2, st.2.2.2 ++ [posNotional])

/-- `get_spot_borrows`: fold of `spot_step` over the active collaterals
(the source iterates the 25-slot array and breaks at `max_cols`). -/
def get_spot_borrows (ro : MfReturnOption) (maxCols : Nat)
    (colArr : Nat → Int) (colInfoArr : Nat → CollateralInfo) (cache : Cache)
    (totalRealizedPnl : Int) : Res SpotAcc :=
  (List.range (min maxCols MAX_COLLATERALS)).foldlM
    (spot_step colArr colInfoArr cache totalRealizedPnl ro)
    (false, [], [], [])

/-- The loop of `calc_weighted_sum`: walks the factor vector, indexes the
weight vector at the running position (out of bounds panics), multiplies
with `safe_mul(..).unwrap()` (overflow panics) and accumulates with a bare
`+=` (overflow traps under the debug profile). -/
def calc_weighted_sum_go (weights : List Int) (i : Nat) (numerator : Int) :
    List Nat → Res Int
  | [] => .ok numerator
  | f :: rest => do
    let w ← option_unwrap (weights.get? i)
    let p ← res_unwrap (safe_mul (f : Int) w)
    let n ← i64_add_trap numerator p
    calc_weighted_sum_go weights (i + 1) n rest

/-- `calc_weighted_sum`: the dot product of a factor vector and a notional
vector. -/
def calc_weighted_sum (factor : List Nat) (weights : List Int) : Res Int :=
  calc_weighted_sum_go weights 0 0 factor

/-- The `MfReturnOption` chosen by `check_fraction_requirement` for each
fraction type. -/
def roOf : FractionType → MfReturnOption
  | .initial => .imf
  | .maintenance => .mmf
  | .cancel => .cancel

/-- `check_fraction_requirement`: runs the perpetual and spot aggregations,
concatenates their vectors (perpetual entries first) and compares the
margin budget with the weighted sum; with no open exposure the check
trivially passes. -/
def check_fraction_requirement (ft : FractionType) (col : Int)
    (maxMarkets maxCols : Nat) (ooAgg : Nat → OpenOrdersInfo)
    (pm : Nat → PerpMarketInfo) (colInfoArr : Nat → CollateralInfo)
    (marginCol : Nat → Int) (cache : Cache) : Res Bool := do
  let P ← get_perp_acc_params col (roOf ft) maxMarkets ooAgg cache.marks pm
    cache.fundingCache
  let S ← get_spot_borrows (roOf ft) maxCols marginCol colInfoArr cache
    P.totalRealizedPnl
  let hasOpen := P.hasOpenPosNotional || S.1
  let posOpenNotionalVec := P.posOpenNotionalVec ++ S.2.2.2
  let posNotionalVec := P.posNotionalVec ++ S.2.2.2
  match ft with
  | .initial =>
    if hasOpen then do
      let s ← i64_add_trap col P.totalRealizedPnl
      let omf ← safe_mul (min P.totalAccValue s) 1000
      let imf ← res_unwrap (calc_weighted_sum (P.pimfVec ++ S.2.1) posOpenNotionalVec)
      return decide (imf < omf)
    else
      return true
  | .maintenance =>
    if hasOpen then do
      let mf ← safe_mul P.totalAccValue 1000
      let mmf ← res_unwrap (calc_weighted_sum (P.pmmfVec ++ S.2.2.1) posNotionalVec)
      return decide (mmf < mf)
    else
      return true
  | .cancel =>
    if hasOpen then do
      let s ← i64_add_trap col P.totalRealizedPnl
      let omf ← safe_mul (min P.totalAccValue s) 1000
      let cmf ← res_unwrap (calc_weighted_sum (P.pcmfVec ++ S.2.1) posOpenNotionalVec)
      return decide (cmf < omf)
    else
      return true

/-- The notional exposure of market `i`'s resting orders, as computed by
`largest_open_order`: `max(coin_on_asks, coin_on_bids)` (a `u64`, converted
exactly) times the mark price. -/
def open_order_exposure (cache : Cache) (ooAgg : Nat → OpenOrdersInfo)
    (i : Nat) : Res Int :=
  safe_mul_i80f48
    (fxFromInt ((max (ooAgg i).coinOnAsks (ooAgg i).coinOnBids : Nat) : Int))
    (cache.marks i)

/-- Rust `Iterator::max_by_key` over indexed values: returns the last
element attaining the maximum (ties are replaced). -/
def max_pair : Option (Nat × Int) → List (Nat × Int) → Option (Nat × Int)
  | acc, [] => acc
  | none, p :: rest => max_pair (some p) rest
  | some b, p :: rest => max_pair (some (if b.2 ≤ p.2 then p else b)) rest

/-- `largest_open_order`: ranks every one of the 50 market slots by
resting-order exposure; a zero maximum is the empty result `none`, a
missing maximum (impossible for the fixed-size array) would be the
`NoPositions` error. -/
def largest_open_order (cache : Cache) (ooAgg : Nat → OpenOrdersInfo) :
    Res (Option Nat) := do
  let exps ← (List.range MAX_MARKETS).mapM (open_order_exposure cache ooAgg)
  match max_pair none exps.enum with
  | none => .error .noPositions
  | some p => if p.2 = 0 then return none else return some p.1

/-- `get_actual_collateral`: the accrued value of the balance at `index`. -/
def get_actual_collateral (index : Nat) (margin : Margin)
    (supplyMultiplier borrowMultiplier : Int) : Res Int :=
  calc_actual_collateral (margin.collateral index) supplyMultiplier
    borrowMultiplier

/-- The `I80F48::from_num(info.weight as f64 / 1000.0)` conversion of
`get_actual_collateral_vec`, modelled as the nearest `I80F48` to
`weight/1000`.  The exact rounding of the intermediate `f64` step is
immaterial to the claims proved in this file (no claim observes the value
of a weighted collateral entry). -/
def weight_frac_fx (w : Nat) : Int := Int.fdiv ((w : Int) * fxScale + 500) 1000

/-- The loop body of `get_actual_collateral_vec` at collateral index `i`:
empty configuration slots are skipped; otherwise the accrued balance is
priced (missing oracle: trap via `unwrap`), weighting only nonnegative
values. -/
def gav_step (margin : Margin) (state : State) (cache : Cache)
    (isWeighted : Bool) (vec : List Int) (i : Nat) : Res (List Int) := do
  let info := state.collaterals i
  let borrow := cache.borrowCache i
  if info.isEmptyInfo then
    return vec
  let v ← res_unwrap (get_actual_collateral i margin borrow.supplyMultiplier
    borrow.borrowMultiplier)
  let oracle ← option_unwrap (get_oracle cache info.oracleSymbol)
  let weightedPrice ← (if isWeighted && decide (0 ≤ v) then
      safe_mul_i80f48 oracle.price (weight_frac_fx info.weight)
    else pure oracle.price : Res Int)
  let pv ← safe_mul_i80f48 weightedPrice v
  return vec ++ [pv]

/-- `get_actual_collateral_vec`: per-asset priced collateral values over
the active collaterals (the source iterates the 25-slot balance array and
breaks at `state.total_collaterals`). -/
def get_actual_collateral_vec (margin : Margin) (state : State)
    (cache : Cache) (isWeighted : Bool) : Res (List Int) :=
  (List.range (min state.totalCollaterals MAX_COLLATERALS)).foldlM
    (gav_step margin state cache isWeighted) []

/-- The loop body of `get_total_collateral` at collateral index `i`:
exactly-zero balances are skipped before any oracle access; otherwise the
balance is priced (missing oracle: trap via `unwrap`), positive USD values
are weighted by `weight/1000`, and the accrual multiplier matching the
balance's sign is applied. -/
def gtc_step (margin : Margin) (cache : Cache) (state : State)
    (total : Int) (i : Nat) : Res Int := do
  let coll := margin.collateral i
  if coll = 0 then
    return total
  let oracle ← option_unwrap (get_oracle cache (state.collaterals i).oracleSymbol)
  let usdcCol ← safe_mul_i80f48 coll oracle.price
  let weightedCol ← (if 0 < usdcCol then do
      let m ← safe_mul_i80f48 usdcCol (fxFromInt ((state.collaterals i).weight : Int))
      fx_checked_div m (fxFromInt 1000)
    else pure usdcCol : Res Int)
  let bc := cache.borrowCache i
  let accrued ← (if 0 < coll then
      safe_mul_i80f48 weightedCol bc.supplyMultiplier
    else
      safe_mul_i80f48 weightedCol bc.borrowMultiplier : Res Int)
  fx_add_trap total accrued

/-- `get_total_collateral`: mark-price estimate of the whole collateral
value; the source iterates the full 25-slot balance array. -/
def get_total_collateral (margin : Margin) (cache : Cache) (state : State) :
    Res Int :=
  (List.range MAX_COLLATERALS).foldlM (gtc_step margin cache state) 0

/-- `calc_max_reducible`: the liquidation-sizing quotient.  The weighted
collateral is clamped to at least 0 before the `min` with the account
value; the numerator uses the checked `safe_mul`/`safe_sub` (so those
overflows are `Overflow` errors); the denominator is the fixed-point
product of the price and `from_num(base_imf) - liq_fee`; the quotient is
`checked_div(..).unwrap()` then `ceil().checked_to_num().unwrap()`. -/
def calc_max_reducible (weightedSumPimfs weightedCol totalAccValue : Int)
    (baseImf : Nat) (price liqFee : Int) : Res Int := do
  let wc := max weightedCol 0
  let s ← safe_mul (min wc totalAccValue) 1000
  let numerator ← safe_sub weightedSumPimfs s
  let diff ← i128chk (fxFromInt (baseImf : Int) - liqFee) .trap
  let denom ← safe_mul_i80f48 price diff
  let q ← fx_checked_div (fxFromInt numerator) denom
  fxToI64 (fxCeilToInt q)

/-- The weighted-sum loop of `get_max_reducible_assets`: for each Initial
factor, multiply the open notional at the same index (`safe_mul` with `?`,
so overflow is an `Overflow` error) and accumulate with a bare `+=`. -/
def weighted_sum_pimfs_go (weights : List Int) (i : Nat) (acc : Int) :
    List Nat → Res Int
  | [] => .ok acc
  | f :: rest => do
    let w ← option_unwrap (weights.get? i)
    let p ← safe_mul w (f : Int)
    let acc2 ← i64_add_trap acc p
    weighted_sum_pimfs_go weights (i + 1) acc2 rest

/-- `get_max_reducible_assets`: combined-mode aggregation feeding
`calc_max_reducible`.  The spot factor vectors appended here are the ones
`get_spot_borrows` returns for `MfReturnOption::Both`. -/
def get_max_reducible_assets (baseImf : Nat) (liqFee price weightedCol : Int)
    (maxMarkets maxCols : Nat) (cache : Cache)
    (ooAgg : Nat → OpenOrdersInfo) (pm : Nat → PerpMarketInfo)
    (marginCol : Nat → Int) (colInfoArr : Nat → CollateralInfo) : Res Int := do
  let P ← get_perp_acc_params weightedCol .both maxMarkets ooAgg cache.marks
    pm cache.fundingCache
  let S ← get_spot_borrows .both maxCols marginCol colInfoArr cache
    P.totalRealizedPnl
  let pimfVec := P.pimfVec ++ S.2.1
  let posOpenNotionalVec := P.posOpenNotionalVec ++ S.2.2.2
  let ws ← weighted_sum_pimfs_go posOpenNotionalVec 0 0 pimfVec
  calc_max_reducible ws weightedCol P.totalAccValue baseImf price liqFee

/-! Spec-side definitions: formulas written from the specification's and the
claims' words, to be compared with the embedded source functions. -/

/-- The dot product `Σ factor_i * notional_i` of §4.5, truncated at the
shorter vector. -/
def dot_prod : List Nat → List Int → Int
  | f :: fs, w :: ws => (f : Int) * w + dot_prod fs ws
  | _, _ => 0

/-- The pass/fail rule of §4.5 exactly as claim C1 states it, evaluated on
the outputs of the two aggregations: with no open exposure the check
passes; Initial/Cancel compare `min(accountValue, weightedCollateral +
realizedPnl) * 1000` against the dot product with the *open* notionals;
Maintenance compares `accountValue * 1000` against the dot product with the
*raw* notionals; exact equality fails. -/
def spec_fraction_pass (ft : FractionType) (col : Int) (P : PerpAccParams)
    (S : SpotAcc) : Bool :=
  if P.hasOpenPosNotional || S.1 then
    match ft with
    | .initial =>
      decide (dot_prod (P.pimfVec ++ S.2.1) (P.posOpenNotionalVec ++ S.2.2.2)
        < min P.totalAccValue (col + P.totalRealizedPnl) * 1000)
    | .maintenance =>
      decide (dot_prod (P.pmmfVec ++ S.2.2.1) (P.posNotionalVec ++ S.2.2.2)
        < P.totalAccValue * 1000)
    | .cancel =>
      decide (dot_prod (P.pcmfVec ++ S.2.1) (P.posOpenNotionalVec ++ S.2.2.2)
        < min P.totalAccValue (col + P.totalRealizedPnl) * 1000)
  else
    true

/-- The spot margin factor exactly as claim C4 states it:
`ceil(1000 * REQUIRED_RATIO / weight) - 1000` with the requirement ratio in
permille (1100 Initial, 1030 Maintenance). -/
def spec_spot_factor_ceil (reqPermille weight : Nat) : Nat :=
  (1000 * reqPermille + weight - 1) / weight - 1000

/-- The spot notional exactly as the spec (§4.4) states it: the realized
P&L is folded into the actual collateral of asset 0 before pricing, and the
notional is `ceil(price * (-actualCollateral))`. -/
def spec_spot_notional (price dep pnl : Int) (isIndexZero : Bool) : Int :=
  let d := if isIndexZero then dep + fxFromInt pnl else dep
  fxCeilToInt (fxMulBits price (-d))

/-- The unrealized P&L of one position as the spec (§4.3 step 2) states it:
floored mark value against the quote balance, by the position's side. -/
def spec_unrealized_pnl (posSize mark npc : Int) : Int :=
  if 0 < posSize then Int.fdiv (posSize * mark) fxScale - (-npc)
  else npc - Int.fdiv ((-posSize) * mark) fxScale

/-- The funding settlement term of one position as the spec (§4.3 step 1)
states it: `floor(positionSize * (-(marketIndex - positionIndex)) / 10^d)`,
floor division even for a negative dividend. -/
def spec_unrealized_funding (posSize cfi mfi : Int) (d : Nat) : Int :=
  Int.fdiv (posSize * -(mfi - cfi)) ((10 : Int) ^ d)

/-- The liquidation-sizing estimate exactly as claim C8 states it:
`ceil((weightedSumImf - 1000 * min(weightedCollateral, accountValue)) /
(targetPrice * (imf - numLf)))`, with the `min` applied directly to the
weighted collateral, and the fixed-point division and ceiling of the
source. -/
def claim_reducible_qty (weightedSumImf weightedCol accountValue : Int)
    (imfFac : Nat) (targetPrice numLf : Int) : Int :=
  let numerator := weightedSumImf - 1000 * min weightedCol accountValue
  let denomBits := fxMulBits targetPrice (fxFromInt (imfFac : Int) - numLf)
  fxCeilToInt (Int.fdiv (fxFromInt numerator * fxScale) denomBits)

/-- The liquidation-sizing estimate amended to what the source computes:
the weighted collateral is clamped to `max(weightedCollateral, 0)` before
the `min` with the account value. -/
def amended_reducible_qty (weightedSumImf weightedCol accountValue : Int)
    (imfFac : Nat) (targetPrice numLf : Int) : Int :=
  let numerator := weightedSumImf - 1000 * min (max weightedCol 0) accountValue
  let denomBits := fxMulBits targetPrice (fxFromInt (imfFac : Int) - numLf)
  fxCeilToInt (Int.fdiv (fxFromInt numerator * fxScale) denomBits)

/-! Helper lemmas about the result monad and the checked primitives. -/

/-- Successful bind splits into a successful head and continuation. -/
theorem bind_ok_iff {α β : Type} {x : Res α} {f : α → Res β} {b : β} :
    x >>= f = .ok b ↔ ∃ a, x = .ok a ∧ f a = .ok b := by
  cases x <;> simp [Bind.bind, Except.bind]

/-- Characterization of a successful `i64` range check. -/
theorem i64chk_ok_iff {x v : Int} {e : Err} :
    i64chk x e = .ok v ↔ (inI64 x = true ∧ v = x) := by
  unfold i64chk
  split <;> rename_i hc
  · constructor
    · intro h
      exact ⟨hc, (Except.ok.inj h).symm⟩
    · intro hv
      rw [hv.2]
  · constructor
    · intro h
      exact nomatch h
    · intro hv
      exact absurd hv.1 hc

/-- Characterization of a successful `i128` range check. -/
theorem i128chk_ok_iff {x v : Int} {e : Err} :
    i128chk x e = .ok v ↔ (inI128 x = true ∧ v = x) := by
  unfold i128chk
  split <;> rename_i hc
  · constructor
    · intro h
      exact ⟨hc, (Except.ok.inj h).symm⟩
    · intro hv
      rw [hv.2]
  · constructor
    · intro h
      exact nomatch h
    · intro hv
      exact absurd hv.1 hc

/-- Characterization of a successful `unwrap` of an option. -/
theorem option_unwrap_ok_iff {α : Type} {o : Option α} {v : α} :
    option_unwrap o = .ok v ↔ o = some v := by
  cases o <;> simp [option_unwrap]

/-- Characterization of a successful `unwrap` of a result. -/
theorem res_unwrap_ok_iff {α : Type} {r : Res α} {v : α} :
    res_unwrap r = .ok v ↔ r = .ok v := by
  cases r <;> simp [res_unwrap]

/-- The dot product with an empty factor vector. -/
theorem dot_prod_nil (w : List Int) : dot_prod [] w = 0 := by
  cases w <;> rfl

/-- The dot product with an exhausted weight vector. -/
theorem dot_prod_cons_nil (f : Nat) (fs : List Nat) :
    dot_prod (f :: fs) [] = 0 := rfl

/-- Unfolding of the dot product on two conses. -/
theorem dot_prod_cons (f : Nat) (fs : List Nat) (w : Int) (ws : List Int) :
    dot_prod (f :: fs) (w :: ws) = (f : Int) * w + dot_prod fs ws := rfl

/-- A successful positional lookup splits the list at that position. -/
theorem drop_of_get? {α : Type} {w : List α} {i : Nat} {a : α}
    (h : w.get? i = some a) : w.drop i = a :: w.drop (i + 1) := by
  rw [List.get?_eq_getElem?] at h
  obtain ⟨hlt, hv⟩ := List.getElem?_eq_some.mp h
  rw [List.drop_eq_getElem_cons hlt, hv]

/-- A successful `calc_weighted_sum` loop returns the accumulator plus the
dot product of the factors with the weights from the running index on. -/
theorem calc_weighted_sum_go_ok (f : List Nat) :
    ∀ (w : List Int) (i : Nat) (n s : Int),
    calc_weighted_sum_go w i n f = .ok s → s = n + dot_prod f (w.drop i) := by
  induction f with
  | nil =>
    intro w i n s h
    simp only [calc_weighted_sum_go] at h
    cases h
    simp [dot_prod_nil]
  | cons fh ft ih =>
    intro w i n s h
    simp only [calc_weighted_sum_go] at h
    obtain ⟨w0, hw0, h⟩ := bind_ok_iff.mp h
    rw [option_unwrap_ok_iff] at hw0
    obtain ⟨p, hp, h⟩ := bind_ok_iff.mp h
    rw [res_unwrap_ok_iff] at hp
    unfold safe_mul at hp
    obtain ⟨-, hp⟩ := i64chk_ok_iff.mp hp
    obtain ⟨n2, hn2, h⟩ := bind_ok_iff.mp h
    unfold i64_add_trap at hn2
    obtain ⟨-, hn2⟩ := i64chk_ok_iff.mp hn2
    have := ih w (i + 1) n2 s h
    rw [drop_of_get? hw0, dot_prod_cons]
    omega

/-- A successful `calc_weighted_sum` is the dot product of §4.5. -/
theorem calc_weighted_sum_ok {f : List Nat} {w : List Int} {s : Int}
    (h : calc_weighted_sum f w = .ok s) : s = dot_prod f w := by
  have := calc_weighted_sum_go_ok f w 0 0 s h
  simpa using this

/-- Characterization of a successful `pure`. -/
theorem pure_ok_iff {α : Type} {a b : α} : (pure a : Res α) = .ok b ↔ b = a := by
  constructor
  · intro h
    exact (Except.ok.inj h).symm
  · intro h
    rw [h]
    rfl

/-- C1.  `check_fraction_requirement` behaves exactly as the claim states:
with no positive open notional from either aggregation it returns `true`;
otherwise Initial and Cancel pass iff
`min(accountValue, weightedCollateral + realizedPnl) * 1000` strictly
exceeds the dot product of the margin factors with the *open* notionals,
and Maintenance passes iff `accountValue * 1000` strictly exceeds the dot
product with the *raw* notionals; exact equality returns `false` (the
comparison is strict). -/
theorem check_fraction_requirement_matches_spec
    (ft : FractionType) (col : Int) (maxMarkets maxCols : Nat)
    (ooAgg : Nat → OpenOrdersInfo) (pm : Nat → PerpMarketInfo)
    (colInfoArr : Nat → CollateralInfo) (marginCol : Nat → Int)
    (cache : Cache) (P : PerpAccParams) (S : SpotAcc) (b : Bool)
    (hP : get_perp_acc_params col (roOf ft) maxMarkets ooAgg cache.marks pm
      cache.fundingCache = .ok P)
    (hS : get_spot_borrows (roOf ft) maxCols marginCol colInfoArr cache
      P.totalRealizedPnl = .ok S)
    (hb : check_fraction_requirement ft col maxMarkets maxCols ooAgg pm
      colInfoArr marginCol cache = .ok b) :
    b = spec_fraction_pass ft col P S := by
  cases ft with
  | initial =>
    unfold check_fraction_requirement at hb
    simp only [bind_ok_iff, pure_ok_iff] at hb
    obtain ⟨P', hP', S', hS', hb⟩ := hb
    have hPP : P' = P := Except.ok.inj (hP'.symm.trans hP)
    subst hPP
    have hSS : S' = S := Except.ok.inj (hS'.symm.trans hS)
    subst hSS
    by_cases hcond : (P'.hasOpenPosNotional || S'.1) = true
    · rw [if_pos hcond] at hb
      simp only [bind_ok_iff, pure_ok_iff] at hb
      obtain ⟨s, hs, omf, homf, imf, himf, hbv⟩ := hb
      unfold i64_add_trap at hs
      obtain ⟨-, hs⟩ := i64chk_ok_iff.mp hs
      unfold safe_mul at homf
      obtain ⟨-, homf⟩ := i64chk_ok_iff.mp homf
      rw [res_unwrap_ok_iff] at himf
      have hdot := calc_weighted_sum_ok himf
      subst hbv
      subst hdot
      subst homf
      subst hs
      simp [spec_fraction_pass, hcond]
    · rw [if_neg hcond] at hb
      rw [pure_ok_iff] at hb
      subst hb
      simp [spec_fraction_pass, hcond]
  | maintenance =>
    unfold check_fraction_requirement at hb
    simp only [bind_ok_iff, pure_ok_iff] at hb
    obtain ⟨P', hP', S', hS', hb⟩ := hb
    have hPP : P' = P := Except.ok.inj (hP'.symm.trans hP)
    subst hPP
    have hSS : S' = S := Except.ok.inj (hS'.symm.trans hS)
    subst hSS
    by_cases hcond : (P'.hasOpenPosNotional || S'.1) = true
    · rw [if_pos hcond] at hb
      simp only [bind_ok_iff, pure_ok_iff] at hb
      obtain ⟨mf, hmf, mmf, hmmf, hbv⟩ := hb
      unfold safe_mul at hmf
      obtain ⟨-, hmf⟩ := i64chk_ok_iff.mp hmf
      rw [res_unwrap_ok_iff] at hmmf
      have hdot := calc_weighted_sum_ok hmmf
      subst hbv
      subst hdot
      subst hmf
      simp [spec_fraction_pass, hcond]
    · rw [if_neg hcond] at hb
      rw [pure_ok_iff] at hb
      subst hb
      simp [spec_fraction_pass, hcond]
  | cancel =>
    unfold check_fraction_requirement at hb
    simp only [bind_ok_iff, pure_ok_iff] at hb
    obtain ⟨P', hP', S', hS', hb⟩ := hb
    have hPP : P' = P := Except.ok.inj (hP'.symm.trans hP)
    subst hPP
    have hSS : S' = S := Except.ok.inj (hS'.symm.trans hS)
    subst hSS
    by_cases hcond : (P'.hasOpenPosNotional || S'.1) = true
    · rw [if_pos hcond] at hb
      simp only [bind_ok_iff, pure_ok_iff] at hb
      obtain ⟨s, hs, omf, homf, cmf, hcmf, hbv⟩ := hb
      unfold i64_add_trap at hs
      obtain ⟨-, hs⟩ := i64chk_ok_iff.mp hs
      unfold safe_mul at homf
      obtain ⟨-, homf⟩ := i64chk_ok_iff.mp homf
      rw [res_unwrap_ok_iff] at hcmf
      have hdot := calc_weighted_sum_ok hcmf
      subst hbv
      subst hdot
      subst homf
      subst hs
      simp [spec_fraction_pass, hcond]
    · rw [if_neg hcond] at hb
      rw [pure_ok_iff] at hb
      subst hb
      simp [spec_fraction_pass, hcond]

/-- One open position for the C1 witness scenario: long 1 unit at entry
cost 10, no resting orders, no funding. -/
def c1ooAgg : Nat → OpenOrdersInfo := fun i =>
  if i = 0 then
    { keyIsDefault := false, posSize := 1, nativePcTotal := -10,
      realizedPnl := 0, coinOnBids := 0, coinOnAsks := 0, fundingIndex := 0 }
  else {}

/-- Market configuration for the C1 witness scenario. -/
def c1pm : Nat → PerpMarketInfo := fun _ => { assetDecimals := 0, baseImf := 100 }

/-- Cache for the C1 witness scenario: mark price 10. -/
def c1cache : Cache :=
  { oracles := [], marks := fun _ => fxFromInt 10,
    fundingCache := fun _ => 0, borrowCache := fun _ => {} }

/-- Perpetual aggregation output of the C1 witness scenario. -/
def c1P : PerpAccParams :=
  { totalAccValue := 100, hasOpenPosNotional := true, totalRealizedPnl := 0,
    pimfVec := [100], pmmfVec := [], pcmfVec := [],
    posOpenNotionalVec := [10], posNotionalVec := [10] }

set_option maxRecDepth 8000 in
/-- Witness for C1: a one-position account (collateral 100, notional 10,
Initial factor 100) passes the Initial check, and the theorem equates the
source's verdict with the claim's formula at this input. -/
theorem check_fraction_requirement_matches_spec_witness :
    (true : Bool) = spec_fraction_pass .initial 100 c1P (false, [], [], []) :=
  check_fraction_requirement_matches_spec .initial 100 1 0 c1ooAgg c1pm
    (fun _ => {}) (fun _ => 0) c1cache c1P (false, [], [], []) true
    (by decide) (by decide) (by decide)

/-- In combined mode (`MfReturnOption::Both`), one spot aggregation step
never appends a margin-factor entry: the factor match falls into the
source's wildcard arm. -/
theorem spot_step_both_no_factors (colArr : Nat → Int)
    (colInfoArr : Nat → CollateralInfo) (cache : Cache) (pnl : Int)
    (st : SpotAcc) (i : Nat) (r : SpotAcc)
    (h : spot_step colArr colInfoArr cache pnl .both st i = .ok r) :
    r.2.1 = st.2.1 ∧ r.2.2.1 = st.2.2.1 := by
  simp only [spot_step] at h
  by_cases hc : 0 ≤ colArr i
  · rw [if_pos hc, pure_ok_iff] at h
    rw [h]
    exact ⟨rfl, rfl⟩
  · rw [if_neg hc] at h
    simp only [bind_ok_iff, pure_ok_iff] at h
    obtain ⟨-, -, dep0, -, dep, -, o, -, pr, -, n, -, facs, hfacs, hr⟩ := h
    subst hfacs
    subst hr
    exact ⟨rfl, rfl⟩

/-- Folding `spot_step` in combined mode over any index list leaves both
factor vectors untouched. -/
theorem spot_fold_both_no_factors (colArr : Nat → Int)
    (colInfoArr : Nat → CollateralInfo) (cache : Cache) (pnl : Int) :
    ∀ (l : List Nat) (st r : SpotAcc),
    l.foldlM (spot_step colArr colInfoArr cache pnl .both) st = .ok r →
    r.2.1 = st.2.1 ∧ r.2.2.1 = st.2.2.1 := by
  intro l
  induction l with
  | nil =>
    intro st r h
    rw [List.foldlM_nil, pure_ok_iff] at h
    rw [h]
    exact ⟨rfl, rfl⟩
  | cons a as ih =>
    intro st r h
    rw [List.foldlM_cons] at h
    obtain ⟨st2, hst2, h⟩ := bind_ok_iff.mp h
    obtain ⟨h1, h2⟩ := spot_step_both_no_factors _ _ _ _ _ _ _ hst2
    obtain ⟨h3, h4⟩ := ih st2 r h
    exact ⟨h3.trans h1, h4.trans h2⟩

/-- Borrowed balance of one unit for the C2 failing input. -/
def c2colArr : Nat → Int := fun _ => fxFromInt (-1)

/-- Collateral configuration for the C2 failing input: weight 900,
oracle symbol 3. -/
def c2ci : Nat → CollateralInfo :=
  fun _ => { oracleSymbol := 3, weight := 900, isEmptyInfo := false }

/-- Cache for the C2 failing input: the borrowed asset's price is 2. -/
def c2cache : Cache :=
  { oracles := [{ symbol := 3, price := fxFromInt 2 }],
    marks := fun _ => 0, fundingCache := fun _ => 0,
    borrowCache := fun _ => {} }

set_option maxRecDepth 40000 in
/-- C2 (code bug).  In combined mode the spot aggregation produces *no*
factor entries at all for any borrowed asset — the wildcard match arm of
`get_spot_borrows` maps `MfReturnOption::Both` to `(None, None)` — so the
weighted sum of `get_max_reducible_assets` ranges only over the perpetual
exposures.  Conjuncts: (1) any successful combined-mode spot aggregation
has empty Initial and Maintenance factor vectors; (2) at the failing input
(one borrow of notional 2) the combined mode yields no factors while (3)
the Initial mode yields factor 222 for the same borrow; (4) liquidation
sizing therefore sees weightedSumImf 0 and estimates 0 reducible units for
an account whose only exposure is that spot borrow. -/
theorem get_spot_borrows_both_produces_no_factors :
    (∀ (maxCols : Nat) (colArr : Nat → Int)
       (colInfoArr : Nat → CollateralInfo) (cache : Cache) (pnl : Int)
       (r : SpotAcc),
       get_spot_borrows .both maxCols colArr colInfoArr cache pnl = .ok r →
       r.2.1 = [] ∧ r.2.2.1 = []) ∧
    get_spot_borrows .both 1 c2colArr c2ci c2cache 0 = .ok (true, [], [], [2]) ∧
    get_spot_borrows .imf 1 c2colArr c2ci c2cache 0 = .ok (true, [222], [], [2]) ∧
    get_max_reducible_assets 222 0 (fxFromInt 2) 0 0 1 c2cache (fun _ => {})
      (fun _ => {}) c2colArr c2ci = .ok 0 := by
  refine ⟨?_, by decide, by decide, by decide⟩
  intro maxCols colArr colInfoArr cache pnl r h
  exact spot_fold_both_no_factors colArr colInfoArr cache pnl _ _ r h

set_option maxRecDepth 40000 in
/-- Witness for C2: the universally quantified conjunct applied at the
failing input (the one-borrow account). -/
theorem get_spot_borrows_both_produces_no_factors_witness :
    (((true, [], [], [2]) : SpotAcc).2.1 = [] ∧
     ((true, [], [], [2]) : SpotAcc).2.2.1 = []) :=
  get_spot_borrows_both_produces_no_factors.1 1 c2colArr c2ci c2cache 0
    (true, [], [], [2]) (by decide)

/-- Borrowed balance for the C3 failing input. -/
def c3colArr : Nat → Int := fun _ => fxFromInt (-1)

/-- Collateral configuration for the C3 failing input. -/
def c3ci : Nat → CollateralInfo :=
  fun _ => { oracleSymbol := 3, weight := 900, isEmptyInfo := false }

/-- Cache for the C3 failing input: the oracle table is empty, so the
borrowed asset's symbol has no price. -/
def c3cache : Cache :=
  { oracles := [], marks := fun _ => 0, fundingCache := fun _ => 0,
    borrowCache := fun _ => {} }

set_option maxRecDepth 40000 in
/-- Counterexample to C3: pricing a borrowed (nonzero-balance) asset whose
oracle is absent makes `get_spot_borrows` abort with the panic outcome of
the source's `get_oracle(..).unwrap()`, not with a `PriceUnavailable`
error value. -/
theorem missing_oracle_panics_not_price_unavailable :
    get_spot_borrows .imf 1 c3colArr c3ci c3cache 0 = .error .trap ∧
    get_spot_borrows .imf 1 c3colArr c3ci c3cache 0 ≠
      .error .priceUnavailable := by
  exact ⟨by decide, by decide⟩

/-- C3 (amended).  Error semantics as the source actually implements them:
(1) a missing oracle price for a borrowed, nonzero-balance asset makes the
spot aggregation panic (`get_oracle(..).unwrap()`), not return
`PriceUnavailable`; (2) an overflowing product inside the weighted-sum dot
product panics (`safe_mul(..).unwrap()`), not return `Overflow`; (3)
checked arithmetic threaded with `?`, such as the funding-index
subtraction in `calc_acc_val`, does return an `Overflow` error. -/
theorem error_semantics_amended :
    (∀ (colArr : Nat → Int) (colInfoArr : Nat → CollateralInfo)
       (cache : Cache) (pnl : Int) (ro : MfReturnOption) (st : SpotAcc)
       (i : Nat) (dep0 : Int),
       colArr i < 0 →
       calc_actual_collateral (colArr i)
         (cache.borrowCache i).supplyMultiplier
         (cache.borrowCache i).borrowMultiplier = .ok dep0 →
       (i = 0 → inI128 (dep0 + fxFromInt pnl) = true) →
       get_oracle cache (colInfoArr i).oracleSymbol = none →
       spot_step colArr colInfoArr cache pnl ro st i = .error .trap) ∧
    (∀ (f : Nat) (fs : List Nat) (w : Int) (ws : List Int),
       inI64 ((f : Int) * w) = false →
       calc_weighted_sum (f :: fs) (w :: ws) = .error .trap) ∧
    (∀ (collateral mark posSize npc rpnl cfi mfi : Int) (d : Nat),
       posSize ≠ 0 → inI128 (mfi - cfi) = false →
       calc_acc_val collateral mark posSize npc rpnl cfi mfi d =
         .error .overflow) := by
  refine ⟨?_, ?_, ?_⟩
  · intro colArr colInfoArr cache pnl ro st i dep0 hneg hdep hpnl ho
    simp only [spot_step]
    rw [if_neg (not_le.mpr hneg)]
    rw [hdep]
    by_cases hi : i = 0
    · subst hi
      simp only [if_pos rfl, fx_add_trap, i128chk, hpnl rfl, if_pos, ho,
        option_unwrap, Bind.bind, Except.bind]
      rfl
    · simp only [if_neg hi, ho, option_unwrap, Bind.bind, Except.bind]
      rfl
  · intro f fs w ws h
    simp only [calc_weighted_sum, calc_weighted_sum_go, List.get?,
      option_unwrap, safe_mul, i64chk, h, res_unwrap, Bind.bind, Except.bind,
      Bool.false_eq_true, if_false]
  · intro collateral mark posSize npc rpnl cfi mfi d hns hof
    simp only [calc_acc_val, safe_sub_i128, i128chk, hof, hns,
      Bool.false_eq_true, if_false, Bind.bind, Except.bind, if_neg]

set_option maxRecDepth 40000 in
/-- Witness for C3: the three conjuncts of the amended claim, each applied
at a concrete input — the C3 failing input for the oracle panic, the
product `65535 * 2^62` for the dot-product panic, and a funding-index gap
of `2^127 - 1 - (-2)` for the `Overflow` propagation. -/
theorem error_semantics_amended_witness :
    spot_step c3colArr c3ci c3cache 0 .imf (false, [], [], []) 0 =
      .error .trap ∧
    calc_weighted_sum [65535] [2 ^ 62] = .error .trap ∧
    calc_acc_val 0 0 1 0 0 (-2) (2 ^ 127 - 1) 0 = .error .overflow :=
  ⟨error_semantics_amended.1 c3colArr c3ci c3cache 0 .imf (false, [], [], [])
     0 (fxFromInt (-1)) (by decide) (by decide) (fun _ => by decide)
     (by decide),
   error_semantics_amended.2.1 65535 [] (2 ^ 62) [] (by decide),
   error_semantics_amended.2.2 0 0 1 0 0 (-2) (2 ^ 127 - 1) 0 (by decide)
     (by decide)⟩

/-- Counterexample to C4: at weight 900 the source computes the truncating
division `1_100_000 / 900 - 1000 = 222`, while the claimed formula
`ceil(1000 * 1100 / 900) - 1000 = 223`. -/
theorem spot_margin_factor_not_ceil :
    spot_margin_factor SPOT_INITIAL_MARGIN_REQ 900 = .ok 222 ∧
    spec_spot_factor_ceil 1100 900 = 223 ∧
    spot_margin_factor SPOT_INITIAL_MARGIN_REQ 900 ≠
      .ok (spec_spot_factor_ceil 1100 900) :=
  ⟨by decide, by decide, by decide⟩

set_option maxRecDepth 40000 in
/-- C4 (amended).  The spot margin factor is computed from the truncating
division `REQUIRED_RATIO_CONSTANT / weight` with the quotient cast to
`u16` (reduced mod `2^16`) and 1000 subtracted in `u16` (the source traps
when the truncated quotient is below 1000, and on a zero weight): every
successful factor equals `quotient mod 2^16 - 1000` (conjunct 1).  For
every weight in the permille range `17 ≤ weight ≤ 1000` the cast and the
subtraction are lossless, and the factor equals
`floor(1000 * REQUIRED_RATIO / weight) - 1000` — floor, not the claimed
ceiling — with the Initial ratio (1100 permille) for Initial and Cancel
and the Maintenance ratio (1030 permille) for Maintenance (conjunct 2); a
Cancel-mode spot aggregation step is literally the Initial-mode step
(conjunct 3).  Outside that range the `u16` cast wraps or the subtraction
traps: weight 16 yields 2214 where the floor formula gives 67750, and
weight 2000 traps (conjunct 4). -/
theorem spot_margin_factor_is_floor :
    (∀ req w f : Nat, spot_margin_factor req w = .ok f →
       w ≠ 0 ∧ 1000 ≤ req / w % 65536 ∧ f = req / w % 65536 - 1000) ∧
    (∀ w : Nat, w < 1001 → 17 ≤ w →
       spot_margin_factor SPOT_INITIAL_MARGIN_REQ w =
         .ok (SPOT_INITIAL_MARGIN_REQ / w - 1000) ∧
       spot_margin_factor SPOT_MAINT_MARGIN_REQ w =
         .ok (SPOT_MAINT_MARGIN_REQ / w - 1000)) ∧
    (∀ (colArr : Nat → Int) (colInfoArr : Nat → CollateralInfo)
       (cache : Cache) (pnl : Int) (st : SpotAcc) (i : Nat),
       spot_step colArr colInfoArr cache pnl .cancel st i =
         spot_step colArr colInfoArr cache pnl .imf st i) ∧
    (spot_margin_factor SPOT_INITIAL_MARGIN_REQ 16 = .ok 2214 ∧
     SPOT_INITIAL_MARGIN_REQ / 16 - 1000 = 67750 ∧
     spot_margin_factor SPOT_INITIAL_MARGIN_REQ 2000 = .error .trap) := by
  refine ⟨?_, by decide, ?_, by decide, by decide, by decide⟩
  · intro req w f h
    unfold spot_margin_factor at h
    by_cases hw : w = 0
    · rw [if_pos hw] at h
      exact nomatch h
    · rw [if_neg hw] at h
      by_cases hq : req / w % 65536 < 1000
      · rw [if_pos hq] at h
        exact nomatch h
      · rw [if_neg hq] at h
        exact ⟨hw, le_of_not_lt hq, (Except.ok.inj h).symm⟩
  · intro colArr colInfoArr cache pnl st i
    rfl

/-- Witness for C4: the universal quotient characterization and the floor
formula evaluated at weight 900, and the Cancel/Initial coincidence at a
concrete aggregation step. -/
theorem spot_margin_factor_is_floor_witness :
    ((900 : Nat) ≠ 0 ∧ 1000 ≤ SPOT_INITIAL_MARGIN_REQ / 900 % 65536 ∧
     (222 : Nat) = SPOT_INITIAL_MARGIN_REQ / 900 % 65536 - 1000) ∧
    (spot_margin_factor SPOT_INITIAL_MARGIN_REQ 900 = .ok 222 ∧
     spot_margin_factor SPOT_MAINT_MARGIN_REQ 900 = .ok 144) ∧
    spot_step (fun _ => 0) (fun _ => {}) {} 0 .cancel (false, [], [], []) 0 =
      spot_step (fun _ => 0) (fun _ => {}) {} 0 .imf (false, [], [], []) 0 :=
  ⟨spot_margin_factor_is_floor.1 SPOT_INITIAL_MARGIN_REQ 900 222 (by decide),
   spot_margin_factor_is_floor.2.1 900 (by decide) (by decide),
   spot_margin_factor_is_floor.2.2.1 (fun _ => 0) (fun _ => {}) {} 0
     (false, [], [], []) 0⟩

/-- The `I80F48` product of an integer and any bit pattern is exact. -/
theorem fxMulBits_fromInt (n m : Int) : fxMulBits (fxFromInt n) m = n * m := by
  unfold fxMulBits fxFromInt
  rw [show n * fxScale * m = fxScale * (n * m) by ring]
  exact Int.mul_fdiv_cancel_left _ (by norm_num [fxScale])

/-- Closed form of a successful `calc_acc_val` on a nonzero position: the
new account value is the old collateral plus the realized P&L, the floored
unrealized P&L and the floored funding settlement. -/
theorem calc_acc_val_ok {collateral mark posSize npc rpnl cfi mfi : Int}
    {d : Nat} {v : Int} (hns : posSize ≠ 0)
    (h : calc_acc_val collateral mark posSize npc rpnl cfi mfi d = .ok v) :
    v = collateral + rpnl + spec_unrealized_pnl posSize mark npc +
        spec_unrealized_funding posSize cfi mfi d := by
  simp only [calc_acc_val] at h
  rw [if_neg hns] at h
  simp only [bind_ok_iff, pure_ok_iff] at h
  obtain ⟨fd, hfd, fp, hfp, dv, hdv, fq, hfq, uf, huf, hrest⟩ := h
  unfold safe_sub_i128 at hfd
  obtain ⟨-, hfd⟩ := i128chk_ok_iff.mp hfd
  unfold safe_mul_i128 at hfp
  obtain ⟨-, hfp⟩ := i128chk_ok_iff.mp hfp
  obtain ⟨-, hdv⟩ := i64chk_ok_iff.mp hdv
  subst hdv
  unfold safe_div_i128 at hfq
  rw [if_neg (by positivity : ¬((10 : Int) ^ d = 0))] at hfq
  obtain ⟨-, hfq⟩ := i128chk_ok_iff.mp hfq
  unfold i128_to_i64 at huf
  obtain ⟨-, huf⟩ := i64chk_ok_iff.mp huf
  subst hfd
  subst hfp
  subst hfq
  subst huf
  unfold spec_unrealized_funding
  by_cases hpos : 0 < posSize
  · rw [if_pos hpos] at hrest
    simp only [bind_ok_iff] at hrest
    obtain ⟨prod, hprod, pos, hpos2, y, hy, s1, hs1, s2, hs2, hv⟩ := hrest
    unfold safe_mul_i80f48 at hprod
    obtain ⟨-, hprod⟩ := i128chk_ok_iff.mp hprod
    rw [fxMulBits_fromInt] at hprod
    unfold fxToI64 at hpos2
    obtain ⟨-, hpos2⟩ := i64chk_ok_iff.mp hpos2
    unfold safe_sub at hy
    obtain ⟨-, hy⟩ := i64chk_ok_iff.mp hy
    unfold i64_add_trap at hs1 hs2 hv
    obtain ⟨-, hs1⟩ := i64chk_ok_iff.mp hs1
    obtain ⟨-, hs2⟩ := i64chk_ok_iff.mp hs2
    obtain ⟨-, hv⟩ := i64chk_ok_iff.mp hv
    subst hprod
    subst hpos2
    subst hy
    subst hs1
    subst hs2
    subst hv
    unfold spec_unrealized_pnl
    rw [if_pos hpos]
    unfold fxFloorToInt
    ring
  · rw [if_neg hpos] at hrest
    simp only [bind_ok_iff] at hrest
    obtain ⟨prod, hprod, bor, hbor, y, hy, s1, hs1, s2, hs2, hv⟩ := hrest
    unfold safe_mul_i80f48 at hprod
    obtain ⟨-, hprod⟩ := i128chk_ok_iff.mp hprod
    rw [fxMulBits_fromInt] at hprod
    unfold fxToI64 at hbor
    obtain ⟨-, hbor⟩ := i64chk_ok_iff.mp hbor
    unfold safe_sub at hy
    obtain ⟨-, hy⟩ := i64chk_ok_iff.mp hy
    unfold i64_add_trap at hs1 hs2 hv
    obtain ⟨-, hs1⟩ := i64chk_ok_iff.mp hs1
    obtain ⟨-, hs2⟩ := i64chk_ok_iff.mp hs2
    obtain ⟨-, hv⟩ := i64chk_ok_iff.mp hv
    subst hprod
    subst hbor
    subst hy
    subst hs1
    subst hs2
    subst hv
    unfold spec_unrealized_pnl
    rw [if_neg hpos]
    unfold fxFloorToInt
    ring

/-- C5.  For a nonzero position, the funding settlement term added to the
running account value is
`floor(positionSize * (-(marketFundingIndex - positionFundingIndex)) /
10^assetDecimals)` — `Int.fdiv`, the floor division rounding toward minus
infinity, also on a negative dividend. -/
theorem calc_acc_val_funding_is_floor
    (collateral mark posSize npc rpnl cfi mfi : Int) (d : Nat) (v : Int)
    (hns : posSize ≠ 0)
    (h : calc_acc_val collateral mark posSize npc rpnl cfi mfi d = .ok v) :
    v = collateral + rpnl + spec_unrealized_pnl posSize mark npc +
        Int.fdiv (posSize * -(mfi - cfi)) ((10 : Int) ^ d) :=
  calc_acc_val_ok hns h

set_option maxRecDepth 40000 in
/-- Witness for C5 at a negative funding dividend: position 3, funding gap
5, one decimal; the settlement is `fdiv (-15) 10 = -2` (floor), not `-1`
(truncation). -/
theorem calc_acc_val_funding_is_floor_witness :
    (-2 : Int) = 0 + 0 + spec_unrealized_pnl 3 0 0 +
      Int.fdiv (3 * -(5 - 0)) ((10 : Int) ^ 1) :=
  calc_acc_val_funding_is_floor 0 0 3 0 0 0 5 1 (-2) (by decide) (by decide)

/-- C6.  Unrealized P&L of one position: a zero-size position leaves the
running value at exactly `collateral + realizedPnl` (and the call succeeds
with that value whenever the sum fits in `i64`; the source's bare add
traps otherwise); a long contributes
`floor(positionSize * markPrice) - (-nativePcTotal)` and a short
`nativePcTotal - floor(-positionSize * markPrice)`, the mark value floored
(rounded toward minus infinity) in both cases. -/
theorem calc_acc_val_pnl_spec
    (collateral mark posSize npc rpnl cfi mfi : Int) (d : Nat) :
    (∀ v, posSize = 0 →
      calc_acc_val collateral mark posSize npc rpnl cfi mfi d = .ok v →
      v = collateral + rpnl) ∧
    (posSize = 0 → inI64 (collateral + rpnl) = true →
      calc_acc_val collateral mark posSize npc rpnl cfi mfi d =
        .ok (collateral + rpnl)) ∧
    (∀ v, 0 < posSize →
      calc_acc_val collateral mark posSize npc rpnl cfi mfi d = .ok v →
      v = collateral + rpnl +
          (Int.fdiv (posSize * mark) fxScale - (-npc)) +
          spec_unrealized_funding posSize cfi mfi d) ∧
    (∀ v, posSize < 0 →
      calc_acc_val collateral mark posSize npc rpnl cfi mfi d = .ok v →
      v = collateral + rpnl +
          (npc - Int.fdiv ((-posSize) * mark) fxScale) +
          spec_unrealized_funding posSize cfi mfi d) := by
  refine ⟨?_, ?_, ?_, ?_⟩
  · intro v h0 h
    subst h0
    unfold calc_acc_val i64_add_trap at h
    rw [if_pos rfl] at h
    exact (i64chk_ok_iff.mp h).2
  · intro h0 hrange
    subst h0
    unfold calc_acc_val i64_add_trap i64chk
    rw [if_pos rfl, if_pos hrange]
  · intro v hpos h
    have := calc_acc_val_ok (by omega) h
    rw [this]
    unfold spec_unrealized_pnl
    rw [if_pos hpos]
  · intro v hneg h
    have := calc_acc_val_ok (by omega) h
    rw [this]
    unfold spec_unrealized_pnl
    rw [if_neg (by omega)]

set_option maxRecDepth 40000 in
/-- Witness for C6: the three cases at concrete inputs — zero size; a long
of 3 units at mark 7.5 (floor 22) against quote balance -10; a short of 2
units at mark 7.5 (floor 15) against quote balance 30. -/
theorem calc_acc_val_pnl_spec_witness :
    ((107 : Int) = 100 + 7) ∧
    calc_acc_val 100 (fxFromInt 10) 0 0 7 5 9 2 = .ok (100 + 7) ∧
    ((112 : Int) = 100 + 0 +
        (Int.fdiv (3 * (fxFromInt 7 + 2 ^ 47)) fxScale - (-(-10)) : Int) +
        spec_unrealized_funding 3 0 0 2) ∧
    ((115 : Int) = 100 + 0 +
        ((30 : Int) - Int.fdiv ((-(-2)) * (fxFromInt 7 + 2 ^ 47)) fxScale) +
        spec_unrealized_funding (-2) 0 0 2) :=
  ⟨(calc_acc_val_pnl_spec 100 (fxFromInt 10) 0 0 7 5 9 2).1 107 rfl
     (by decide),
   (calc_acc_val_pnl_spec 100 (fxFromInt 10) 0 0 7 5 9 2).2.1 rfl (by decide),
   (calc_acc_val_pnl_spec 100 (fxFromInt 7 + 2 ^ 47) 3 (-10) 0 0 0 2).2.2.1
     112 (by decide) (by decide),
   (calc_acc_val_pnl_spec 100 (fxFromInt 7 + 2 ^ 47) (-2) 30 0 0 0 2).2.2.2
     115 (by decide) (by decide)⟩

/-- Floor division of a nonpositive dividend by a nonnegative divisor is
nonpositive. -/
theorem fdiv_nonpos_of_nonpos {a b : Int} (ha : a ≤ 0) (hb : 0 ≤ b) :
    Int.fdiv a b ≤ 0 := by
  rcases eq_or_lt_of_le hb with h | h
  · rw [← h, Int.fdiv_zero]
  · by_contra hq
    push_neg at hq
    have h1 := Int.fmod_add_fdiv a b
    have h2 := Int.fmod_nonneg' a h
    nlinarith

/-- Floor division of a negative dividend by a positive divisor is
negative. -/
theorem fdiv_neg_of_neg {a b : Int} (ha : a < 0) (hb : 0 < b) :
    Int.fdiv a b < 0 := by
  by_contra hq
  push_neg at hq
  have h1 := Int.fmod_add_fdiv a b
  have h2 := Int.fmod_nonneg' a hb
  nlinarith

/-- The fixed-point product of nonnegative bit patterns is nonnegative. -/
theorem fxMulBits_nonneg {a b : Int} (ha : 0 ≤ a) (hb : 0 ≤ b) :
    0 ≤ fxMulBits a b := by
  unfold fxMulBits
  have hS : (0 : Int) ≤ fxScale := by norm_num [fxScale]
  rw [Int.fdiv_eq_ediv _ hS]
  exact Int.ediv_nonneg (mul_nonneg ha hb) hS

/-- The ceiling conversion of a nonnegative fixed-point value is
nonnegative. -/
theorem fxCeilToInt_nonneg {x : Int} (h : 0 ≤ x) : 0 ≤ fxCeilToInt x := by
  unfold fxCeilToInt
  have := fdiv_nonpos_of_nonpos (by omega : -x ≤ 0)
    (by norm_num [fxScale] : (0 : Int) ≤ fxScale)
  omega

/-- Borrowed balance for the C7 counterexample. -/
def c7colArr : Nat → Int := fun _ => fxFromInt (-1)

/-- Collateral configuration for the C7 counterexample. -/
def c7ci : Nat → CollateralInfo :=
  fun _ => { oracleSymbol := 3, weight := 900, isEmptyInfo := false }

/-- Cache for the C7 counterexample: the borrowed asset's price is 2. -/
def c7cache : Cache :=
  { oracles := [{ symbol := 3, price := fxFromInt 2 }],
    marks := fun _ => 0, fundingCache := fun _ => 0,
    borrowCache := fun _ => {} }

set_option maxRecDepth 40000 in
/-- Counterexample to C7: at index 0 a one-unit borrow with an accumulated
realized P&L of 1000 is repriced to the positive value 999, so the
"notional" `ceil(price * (-actualCollateral))` is `-1998`, which is
negative. -/
theorem spot_notional_negative_at_index_zero :
    get_spot_borrows .imf 1 c7colArr c7ci c7cache 1000 =
      .ok (false, [222], [], [-1998]) ∧ (-1998 : Int) < 0 :=
  ⟨by decide, by decide⟩

/-- C7 (amended).  (1) Spot aggregation skips every asset whose raw balance
is nonnegative (so exactly the negative balances are processed — by (2),
with accrual multipliers of at least one, negative raw balance and negative
actual balance coincide); (2) the sign of the actual collateral equals the
sign of the raw balance; (3) a processed asset appends exactly one
notional, `ceil(price * (-(actual + realizedPnl)))` at index 0 and
`ceil(price * (-actual))` elsewhere, and away from index 0 the notional is
nonnegative (given nonnegative price and borrow multiplier); at index 0 the
added realized P&L can make it negative. -/
theorem spot_borrows_processing_amended :
    (∀ (colArr : Nat → Int) (colInfoArr : Nat → CollateralInfo)
       (cache : Cache) (pnl : Int) (ro : MfReturnOption) (st : SpotAcc)
       (i : Nat), 0 ≤ colArr i →
       spot_step colArr colInfoArr cache pnl ro st i = .ok st) ∧
    (∀ (raw sm bm v : Int), fxFromInt 1 ≤ sm → fxFromInt 1 ≤ bm →
       calc_actual_collateral raw sm bm = .ok v → (v < 0 ↔ raw < 0)) ∧
    (∀ (colArr : Nat → Int) (colInfoArr : Nat → CollateralInfo)
       (cache : Cache) (pnl : Int) (ro : MfReturnOption) (st : SpotAcc)
       (i : Nat) (dep0 : Int) (o : OracleCache) (r : SpotAcc),
       colArr i < 0 →
       calc_actual_collateral (colArr i)
         (cache.borrowCache i).supplyMultiplier
         (cache.borrowCache i).borrowMultiplier = .ok dep0 →
       get_oracle cache (colInfoArr i).oracleSymbol = some o →
       spot_step colArr colInfoArr cache pnl ro st i = .ok r →
       r.2.2.2 = st.2.2.2 ++
         [spec_spot_notional o.price dep0 pnl (decide (i = 0))] ∧
       (i ≠ 0 → 0 ≤ o.price → 0 ≤ (cache.borrowCache i).borrowMultiplier →
         0 ≤ spec_spot_notional o.price dep0 pnl (decide (i = 0)))) := by
  refine ⟨?_, ?_, ?_⟩
  · intro colArr colInfoArr cache pnl ro st i h
    simp only [spot_step]
    rw [if_pos h]
    rfl
  · intro raw sm bm v hsm hbm hv
    have hS : (0 : Int) < fxScale := by norm_num [fxScale]
    have hsm0 : (0 : Int) < sm := by
      have : (0 : Int) < fxFromInt 1 := by norm_num [fxFromInt, fxScale]
      omega
    have hbm0 : (0 : Int) < bm := by
      have : (0 : Int) < fxFromInt 1 := by norm_num [fxFromInt, fxScale]
      omega
    unfold calc_actual_collateral at hv
    by_cases hr : 0 < raw
    · rw [if_pos hr] at hv
      unfold safe_mul_i80f48 at hv
      obtain ⟨-, hv⟩ := i128chk_ok_iff.mp hv
      subst hv
      have hnn : 0 ≤ fxMulBits raw sm :=
        fxMulBits_nonneg (le_of_lt hr) (le_of_lt hsm0)
      constructor
      · intro h
        omega
      · intro h
        omega
    · rw [if_neg hr] at hv
      unfold safe_mul_i80f48 at hv
      obtain ⟨-, hv⟩ := i128chk_ok_iff.mp hv
      subst hv
      rcases (not_lt.mp hr).lt_or_eq with hlt | h0
      · have hmneg : fxMulBits raw bm < 0 := by
          unfold fxMulBits
          exact fdiv_neg_of_neg (mul_neg_of_neg_of_pos hlt hbm0) hS
        constructor
        · intro _
          exact hlt
        · intro _
          exact hmneg
      · subst h0
        simp [fxMulBits]
  · intro colArr colInfoArr cache pnl ro st i dep0 o r hneg hdep ho hstep
    simp only [spot_step] at hstep
    rw [if_neg (not_le.mpr hneg)] at hstep
    simp only [bind_ok_iff, pure_ok_iff] at hstep
    obtain ⟨-, -, dep0x, hdep0x, dep, hdepv, ox, hox, pr, hpr, n, hn, facs,
      hfacs, hr⟩ := hstep
    rw [(Except.ok.inj (hdep0x.symm.trans hdep) : dep0x = dep0)] at hdepv
    rw [option_unwrap_ok_iff, ho] at hox
    have hoo : ox = o := (Option.some.inj hox).symm
    unfold safe_mul_i80f48 at hpr
    obtain ⟨-, hpr⟩ := i128chk_ok_iff.mp hpr
    rw [hoo] at hpr
    unfold fxToI64 at hn
    obtain ⟨-, hn⟩ := i64chk_ok_iff.mp hn
    have hdepval : dep = (if i = 0 then dep0 + fxFromInt pnl else dep0) := by
      by_cases hi : i = 0
      · rw [if_pos hi]
        rw [if_pos hi] at hdepv
        unfold fx_add_trap at hdepv
        obtain ⟨-, hd⟩ := i128chk_ok_iff.mp hdepv
        exact hd
      · rw [if_neg hi]
        rw [if_neg hi] at hdepv
        exact pure_ok_iff.mp hdepv
    have hspec : n = spec_spot_notional o.price dep0 pnl (decide (i = 0)) := by
      unfold spec_spot_notional
      rw [hn, hpr, hdepval]
      by_cases hi : i = 0
      · simp [hi]
      · simp [hi]
    constructor
    · rw [hr, hspec]
    · intro hi0 hprice hbm
      have hdep0n : dep0 ≤ 0 := by
        unfold calc_actual_collateral at hdep
        rw [if_neg (by omega : ¬0 < colArr i)] at hdep
        unfold safe_mul_i80f48 at hdep
        obtain ⟨-, hd⟩ := i128chk_ok_iff.mp hdep
        rw [hd]
        unfold fxMulBits
        exact fdiv_nonpos_of_nonpos (by nlinarith) (by norm_num [fxScale])
      unfold spec_spot_notional
      rw [if_neg (by simp [hi0])]
      exact fxCeilToInt_nonneg (fxMulBits_nonneg hprice (by omega))

set_option maxRecDepth 40000 in
/-- Witness for C7: the skip conjunct on a zero balance, the sign
equivalence at raw balance -1 with unit multipliers, and the
notional-shape conjunct at the C7 input with zero realized P&L (the
appended notional is `ceil(2 * 1) = 2`). -/
theorem spot_borrows_processing_amended_witness :
    spot_step (fun _ => 0) c7ci c7cache 0 .imf (false, [], [], []) 0 =
      .ok (false, [], [], []) ∧
    ((-(fxScale) : Int) < 0 ↔ (fxFromInt (-1) : Int) < 0) ∧
    (((true, [222], [], [2]) : SpotAcc).2.2.2 = [] ++
      [spec_spot_notional (fxFromInt 2) (-(fxScale)) 0 (decide ((0 : Nat) = 0))]) :=
  ⟨spot_borrows_processing_amended.1 (fun _ => 0) c7ci c7cache 0 .imf
     (false, [], [], []) 0 (by decide),
   spot_borrows_processing_amended.2.1 (fxFromInt (-1)) (fxFromInt 1)
     (fxFromInt 1) (-(fxScale)) (by decide) (by decide) (by decide),
   (spot_borrows_processing_amended.2.2 c7colArr c7ci c7cache 0 .imf
     (false, [], [], []) 0 (-(fxScale)) { symbol := 3, price := fxFromInt 2 }
     (true, [222], [], [2]) (by decide) (by decide) (by decide)
     (by decide)).1⟩

set_option maxRecDepth 40000 in
/-- Counterexample to C8: with weighted collateral -2 and account value 10,
the source clamps the weighted collateral to 0 first (numerator
`0 - 1000 * min(0, 10) = 0`, estimate 0), while the claim's formula applies
`min` directly (numerator `0 - 1000 * min(-2, 10) = 2000`, estimate 2). -/
theorem calc_max_reducible_clamps_weighted_col :
    calc_max_reducible 0 (-2) 10 1000 (fxFromInt 1) 0 = .ok 0 ∧
    claim_reducible_qty 0 (-2) 10 1000 (fxFromInt 1) 0 = 2 ∧
    calc_max_reducible 0 (-2) 10 1000 (fxFromInt 1) 0 ≠
      .ok (claim_reducible_qty 0 (-2) 10 1000 (fxFromInt 1) 0) :=
  ⟨by decide, by decide, by decide⟩

/-- C8 (amended).  A successful `calc_max_reducible` returns
`ceil((weightedSumImf - 1000 * min(max(weightedCollateral, 0),
accountValue)) / (targetPrice * (imf - numLf)))` — the claim's formula with
the weighted collateral clamped to at least zero before the `min`. -/
theorem calc_max_reducible_matches_amended_formula
    (wsp wc tav : Int) (bimf : Nat) (price lf v : Int)
    (h : calc_max_reducible wsp wc tav bimf price lf = .ok v) :
    v = amended_reducible_qty wsp wc tav bimf price lf := by
  simp only [calc_max_reducible] at h
  simp only [bind_ok_iff] at h
  obtain ⟨sv, hs, num, hnum, diff, hdiff, den, hden, q, hq, hv⟩ := h
  unfold safe_mul at hs
  obtain ⟨-, hs⟩ := i64chk_ok_iff.mp hs
  unfold safe_sub at hnum
  obtain ⟨-, hnum⟩ := i64chk_ok_iff.mp hnum
  obtain ⟨-, hdiff⟩ := i128chk_ok_iff.mp hdiff
  unfold safe_mul_i80f48 at hden
  obtain ⟨-, hden⟩ := i128chk_ok_iff.mp hden
  unfold fx_checked_div at hq
  by_cases hz : den = 0
  · rw [if_pos hz] at hq
    exact absurd hq (by simp)
  · rw [if_neg hz] at hq
    obtain ⟨-, hq⟩ := i128chk_ok_iff.mp hq
    unfold fxToI64 at hv
    obtain ⟨-, hv⟩ := i64chk_ok_iff.mp hv
    subst hs
    subst hnum
    subst hdiff
    subst hden
    subst hq
    subst hv
    unfold amended_reducible_qty
    rw [Int.mul_comm (min (max wc 0) tav) 1000]

set_option maxRecDepth 40000 in
/-- Witness for C8: at weighted sum 2000, weighted collateral 5, account
value 10, factor 1000, price 1, fee 0, the estimate is `ceil(-3000/1000) =
-3` and agrees with the amended formula. -/
theorem calc_max_reducible_matches_amended_formula_witness :
    (-3 : Int) = amended_reducible_qty 2000 5 10 1000 (fxFromInt 1) 0 :=
  calc_max_reducible_matches_amended_formula 2000 5 10 1000 (fxFromInt 1) 0
    (-3) (by decide)

/-- Failed bind splits into a failed head or a successful head with a
failed continuation. -/
theorem bind_error_iff {α β : Type} {x : Res α} {f : α → Res β} {e : Err} :
    x >>= f = .error e ↔
      (x = .error e ∨ ∃ a, x = .ok a ∧ f a = .error e) := by
  cases x <;> simp [Bind.bind, Except.bind]

/-- A successful `mapM` preserves the length. -/
theorem mapM_ok_length {α : Type} (f : α → Res Int) :
    ∀ (l : List α) (r : List Int), l.mapM f = .ok r → r.length = l.length := by
  intro l
  induction l with
  | nil =>
    intro r h
    rw [List.mapM_nil] at h
    rw [pure_ok_iff.mp h]
    rfl
  | cons a as ih =>
    intro r h
    rw [List.mapM_cons] at h
    obtain ⟨x, -, h⟩ := bind_ok_iff.mp h
    obtain ⟨xs, hxs, h⟩ := bind_ok_iff.mp h
    rw [pure_ok_iff.mp h]
    simp [ih xs hxs]

/-- `max_by_key` over a nonempty tail: the result exists, is the seed or a
list element, dominates the seed and every element, and ties are resolved
toward later elements. -/
theorem max_pair_some (l : List (Nat × Int)) :
    ∀ b : Nat × Int, ∃ r, max_pair (some b) l = some r ∧
      (r = b ∨ r ∈ l) ∧ b.2 ≤ r.2 ∧ ∀ p ∈ l, p.2 ≤ r.2 := by
  induction l with
  | nil =>
    intro b
    exact ⟨b, rfl, Or.inl rfl, le_refl _, by simp⟩
  | cons p rest ih =>
    intro b
    obtain ⟨r, hr, hmem, hle, hall⟩ := ih (if b.2 ≤ p.2 then p else b)
    refine ⟨r, hr, ?_, ?_, ?_⟩
    · rcases hmem with h | h
      · by_cases hc : b.2 ≤ p.2
        · rw [if_pos hc] at h
          exact Or.inr (h ▸ List.mem_cons_self p rest)
        · rw [if_neg hc] at h
          exact Or.inl h
      · exact Or.inr (List.mem_cons_of_mem p h)
    · by_cases hc : b.2 ≤ p.2
      · rw [if_pos hc] at hle
        exact le_trans hc hle
      · rw [if_neg hc] at hle
        exact hle
    · intro q hq
      rcases List.mem_cons.mp hq with h | h
      · subst h
        by_cases hc : b.2 ≤ q.2
        · rw [if_pos hc] at hle
          exact hle
        · rw [if_neg hc] at hle
          exact le_trans (le_of_not_le hc) hle
      · exact hall q h

/-- `open_order_exposure` can only fail with a trap (fixed-point
multiplication overflow). -/
theorem open_order_exposure_error_trap (cache : Cache)
    (ooAgg : Nat → OpenOrdersInfo) (i : Nat) (e : Err)
    (h : open_order_exposure cache ooAgg i = .error e) : e = .trap := by
  unfold open_order_exposure safe_mul_i80f48 i128chk at h
  split at h
  · exact nomatch h
  · exact (Except.error.inj h).symm

/-- `mapM` over a function that fails only with traps fails only with a
trap. -/
theorem mapM_error_trap (f : Nat → Res Int)
    (hf : ∀ i e, f i = .error e → e = .trap) :
    ∀ (l : List Nat) (e : Err), l.mapM f = .error e → e = .trap := by
  intro l
  induction l with
  | nil =>
    intro e h
    rw [List.mapM_nil] at h
    exact nomatch h
  | cons a as ih =>
    intro e h
    rw [List.mapM_cons] at h
    rcases bind_error_iff.mp h with h1 | ⟨x, -, h1⟩
    · exact hf a e h1
    · rcases bind_error_iff.mp h1 with h2 | ⟨xs, -, h2⟩
      · exact ih e h2
      · exact nomatch h2

/-- `mapM` over a constant-successful function returns the mapped list. -/
theorem mapM_const_ok {α : Type} (f : α → Res Int) (c : Int)
    (hf : ∀ a, f a = .ok c) :
    ∀ l : List α, l.mapM f = .ok (l.map fun _ => c) := by
  intro l
  induction l with
  | nil => rw [List.mapM_nil]; rfl
  | cons a as ih =>
    rw [List.mapM_cons, hf a, ih]
    rfl

/-- Cache for the C9 inputs: every mark price is 1 (or 3 for the ranking
scenario). -/
def c9cache : Cache :=
  { oracles := [], marks := fun _ => fxFromInt 1,
    fundingCache := fun _ => 0, borrowCache := fun _ => {} }

set_option maxRecDepth 40000 in
/-- Counterexample to C9: an account with zero active positions (all 50
slots empty, every resting quantity zero) makes `largest_open_order`
return the empty result `Ok(None)`, not the `NoPositions` error — the
error branch is unreachable because the 50-slot array is never empty. -/
theorem largest_open_order_no_positions_unreachable :
    largest_open_order c9cache (fun _ => {}) = .ok none ∧
    largest_open_order c9cache (fun _ => {}) ≠ .error .noPositions :=
  ⟨by decide, by decide⟩

/-- The value component of an enumerated entry is a list element. -/
theorem enum_snd_mem {l : List Int} {p : Nat × Int} (h : p ∈ l.enum) :
    p.2 ∈ l := by
  have := List.mem_map_of_mem Prod.snd h
  rwa [List.enum_map_snd] at this

/-- Every list element is the value of some enumerated entry. -/
theorem mem_enum_pair_of_mem {l : List Int} {y : Int} (h : y ∈ l) :
    ∃ p ∈ l.enum, p.2 = y := by
  rw [← List.enum_map_snd l] at h
  exact List.mem_map.mp h

/-- The `max_by_key` result over a cons list's enumeration: it exists, is
an enumerated entry, and dominates every enumerated entry. -/
theorem max_pair_enum_spec (x : Int) (xs : List Int) :
    ∃ r, max_pair (some (0, x)) (List.enumFrom 1 xs) = some r ∧
      r ∈ (x :: xs).enum ∧ ∀ p ∈ (x :: xs).enum, p.2 ≤ r.2 := by
  obtain ⟨r, hr, hmem, hle, hall⟩ := max_pair_some (List.enumFrom 1 xs) (0, x)
  refine ⟨r, hr, ?_, ?_⟩
  · rw [List.enum_cons]
    rcases hmem with h | h
    · exact h ▸ List.mem_cons_self _ _
    · exact List.mem_cons_of_mem _ h
  · intro p hp
    rw [List.enum_cons] at hp
    rcases List.mem_cons.mp hp with h | h
    · rw [h]
      exact hle
    · exact hall p h

set_option maxRecDepth 40000 in
/-- C9 (amended).  (1) `largest_open_order` never returns the `NoPositions`
error: the iterator over the fixed 50-slot array is never empty, so the
error branch is dead.  When the 50 per-market exposure computations
succeed, (2) the call returns a value, and (3) it returns the empty result
`Ok(None)` exactly when the maximum of the exposures
`max(coinOnBids, coinOnAsks) * markPrice` is exactly zero (zero is an
exposure and no exposure exceeds it); (4) when it returns `Ok(Some i)`,
market `i` attains the maximum exposure and that maximum is nonzero; (5)
in particular, an account whose resting-order quantities are all zero —
such as one with no active positions — yields `Ok(None)`. -/
theorem largest_open_order_amended :
    (∀ (cache : Cache) (ooAgg : Nat → OpenOrdersInfo),
       largest_open_order cache ooAgg ≠ .error .noPositions) ∧
    (∀ (cache : Cache) (ooAgg : Nat → OpenOrdersInfo) (exps : List Int),
       (List.range MAX_MARKETS).mapM (open_order_exposure cache ooAgg) =
         .ok exps →
       ∃ o, largest_open_order cache ooAgg = .ok o) ∧
    (∀ (cache : Cache) (ooAgg : Nat → OpenOrdersInfo) (exps : List Int),
       (List.range MAX_MARKETS).mapM (open_order_exposure cache ooAgg) =
         .ok exps →
       (largest_open_order cache ooAgg = .ok none ↔
         ((0 : Int) ∈ exps ∧ ∀ x ∈ exps, x ≤ 0))) ∧
    (∀ (cache : Cache) (ooAgg : Nat → OpenOrdersInfo) (exps : List Int)
       (i : Nat),
       (List.range MAX_MARKETS).mapM (open_order_exposure cache ooAgg) =
         .ok exps →
       largest_open_order cache ooAgg = .ok (some i) →
       ∃ v, (i, v) ∈ exps.enum ∧ v ≠ 0 ∧ ∀ p ∈ exps.enum, p.2 ≤ v) ∧
    (∀ (cache : Cache) (ooAgg : Nat → OpenOrdersInfo),
       (∀ i, (ooAgg i).coinOnBids = 0 ∧ (ooAgg i).coinOnAsks = 0) →
       largest_open_order cache ooAgg = .ok none) := by
  have hnonempty : ∀ (cache : Cache) (ooAgg : Nat → OpenOrdersInfo)
      (exps : List Int),
      (List.range MAX_MARKETS).mapM (open_order_exposure cache ooAgg) =
        .ok exps → ∃ x xs, exps = x :: xs := by
    intro cache ooAgg exps hm
    rcases exps with - | ⟨x, xs⟩
    · have hlen := mapM_ok_length _ _ _ hm
      simp [MAX_MARKETS] at hlen
    · exact ⟨x, xs, rfl⟩
  refine ⟨?_, ?_, ?_, ?_, ?_⟩
  · intro cache ooAgg h
    unfold largest_open_order at h
    rcases bind_error_iff.mp h with h1 | ⟨exps, hm, h1⟩
    · exact absurd (mapM_error_trap _
        (open_order_exposure_error_trap cache ooAgg) _ _ h1) (by decide)
    · obtain ⟨x, xs, hx⟩ := hnonempty cache ooAgg exps hm
      subst hx
      rw [List.enum_cons] at h1
      obtain ⟨r, hr, -, -⟩ := max_pair_enum_spec x xs
      rw [show max_pair none ((0, x) :: List.enumFrom 1 xs) =
            max_pair (some (0, x)) (List.enumFrom 1 xs) from rfl, hr] at h1
      by_cases hz : r.2 = 0 <;> simp [hz, pure, Except.pure] at h1
  · intro cache ooAgg exps hm
    obtain ⟨x, xs, hx⟩ := hnonempty cache ooAgg exps hm
    subst hx
    unfold largest_open_order
    rw [hm]
    simp only [Bind.bind, Except.bind]
    rw [List.enum_cons]
    obtain ⟨r, hr, -, -⟩ := max_pair_enum_spec x xs
    rw [show max_pair none ((0, x) :: List.enumFrom 1 xs) =
          max_pair (some (0, x)) (List.enumFrom 1 xs) from rfl, hr]
    by_cases hz : r.2 = 0
    · exact ⟨none, by simp [hz, pure, Except.pure]⟩
    · exact ⟨some r.1, by simp [hz, pure, Except.pure]⟩
  · intro cache ooAgg exps hm
    obtain ⟨x, xs, hx⟩ := hnonempty cache ooAgg exps hm
    subst hx
    unfold largest_open_order
    rw [hm]
    simp only [Bind.bind, Except.bind]
    rw [List.enum_cons]
    obtain ⟨r, hr, hmem, hall⟩ := max_pair_enum_spec x xs
    rw [show max_pair none ((0, x) :: List.enumFrom 1 xs) =
          max_pair (some (0, x)) (List.enumFrom 1 xs) from rfl, hr]
    have hrmem : r.2 ∈ x :: xs := enum_snd_mem hmem
    have hrmax : ∀ y ∈ x :: xs, y ≤ r.2 := by
      intro y hy
      obtain ⟨p, hp, hpy⟩ := mem_enum_pair_of_mem hy
      rw [← hpy]
      exact hall p hp
    by_cases hz : r.2 = 0
    · constructor
      · intro _
        refine ⟨?_, ?_⟩
        · rw [← hz]
          exact hrmem
        · intro y hy
          rw [← hz]
          exact hrmax y hy
      · intro _
        simp only [hz, if_pos]
        rfl
    · constructor
      · intro habs
        simp [hz, pure, Except.pure] at habs
      · rintro ⟨h0, hle0⟩
        exfalso
        obtain ⟨p, hp, hp0⟩ := mem_enum_pair_of_mem h0
        have h1 : (0 : Int) ≤ r.2 := hp0 ▸ hall p hp
        have h2 : r.2 ≤ 0 := hle0 _ hrmem
        omega
  · intro cache ooAgg exps i hm hl
    unfold largest_open_order at hl
    rw [hm] at hl
    simp only [Bind.bind, Except.bind] at hl
    obtain ⟨x, xs, hx⟩ := hnonempty cache ooAgg exps hm
    subst hx
    rw [List.enum_cons] at hl
    obtain ⟨r, hr, hmem, hall⟩ := max_pair_enum_spec x xs
    rw [show max_pair none ((0, x) :: List.enumFrom 1 xs) =
          max_pair (some (0, x)) (List.enumFrom 1 xs) from rfl, hr] at hl
    by_cases hz : r.2 = 0
    · simp [hz, pure, Except.pure] at hl
    · simp only [hz, pure, if_neg, if_false] at hl
      have hi : r.1 = i := Option.some.inj (Except.ok.inj hl)
      refine ⟨r.2, ?_, hz, hall⟩
      rw [← hi, Prod.mk.eta]
      exact hmem
  · intro cache ooAgg h0
    have hf : ∀ i, open_order_exposure cache ooAgg i = .ok 0 := by
      intro i
      unfold open_order_exposure
      rw [(h0 i).1, (h0 i).2]
      have h1 : fxMulBits (fxFromInt ((max 0 0 : Nat) : Int))
          (cache.marks i) = 0 := by
        simp [fxMulBits, fxFromInt, Int.zero_fdiv]
      unfold safe_mul_i80f48
      rw [h1]
      decide
    have hm := mapM_const_ok _ 0 hf (List.range MAX_MARKETS)
    unfold largest_open_order
    rw [hm]
    simp only [Bind.bind, Except.bind]
    decide

/-- Open-orders aggregate for the C9 ranking witness: market 7 has 5 coins
resting on bids, the rest are empty. -/
def c9agg : Nat → OpenOrdersInfo := fun i =>
  if i = 7 then { keyIsDefault := false, coinOnBids := 5 } else {}

/-- Cache for the C9 ranking witness: every mark price is 3. -/
def c9cacheB : Cache :=
  { oracles := [], marks := fun _ => fxFromInt 3,
    fundingCache := fun _ => 0, borrowCache := fun _ => {} }

/-- The exposure list of the C9 ranking witness scenario: 15 at market 7,
zero elsewhere. -/
def c9exps : List Int :=
  (List.range MAX_MARKETS).map (fun j => if j = 7 then fxFromInt 15 else 0)

set_option maxRecDepth 100000 in
/-- Witness for C9: the zero-quantity conjunct at an all-empty account, and
the totality, zero-iff and ranking conjuncts at an account whose market 7
strictly dominates (exposure 15, all other exposures 0). -/
theorem largest_open_order_amended_witness :
    largest_open_order c9cache (fun _ => {}) = .ok none ∧
    (∃ o, largest_open_order c9cacheB c9agg = .ok o) ∧
    (largest_open_order c9cacheB c9agg = .ok none ↔
      ((0 : Int) ∈ c9exps ∧ ∀ x ∈ c9exps, x ≤ 0)) ∧
    (∃ v, (7, v) ∈ c9exps.enum ∧ v ≠ 0 ∧ ∀ p ∈ c9exps.enum, p.2 ≤ v) :=
  ⟨largest_open_order_amended.2.2.2.2 c9cache (fun _ => {})
     (fun _ => ⟨rfl, rfl⟩),
   largest_open_order_amended.2.1 c9cacheB c9agg c9exps (by decide),
   largest_open_order_amended.2.2.1 c9cacheB c9agg c9exps (by decide),
   largest_open_order_amended.2.2.2.1 c9cacheB c9agg c9exps 7 (by decide)
     (by decide)⟩

/-- State for the C10 input: one active collateral with a non-empty
configuration slot. -/
def c10state : State :=
  { totalCollaterals := 1,
    collaterals := fun _ =>
      { oracleSymbol := 5, weight := 1000, isEmptyInfo := false } }

/-- Margin for the C10 input: exactly-zero balance everywhere. -/
def c10margin : Margin := { collateral := fun _ => 0 }

/-- Cache for the C10 input: the oracle table is empty, so no asset has a
price. -/
def c10cache : Cache :=
  { oracles := [], marks := fun _ => 0, fundingCache := fun _ => 0,
    borrowCache := fun _ => {} }

set_option maxRecDepth 40000 in
/-- Counterexample to C10: a zero-balance asset with a non-empty
configuration and a missing price makes `get_actual_collateral_vec` abort
(the oracle is looked up and `unwrap`ped before the balance's value
matters), while `get_total_collateral` on the same snapshot skips the
asset and succeeds. -/
theorem zero_balance_priced_in_actual_collateral_vec :
    get_actual_collateral_vec c10margin c10state c10cache false =
      .error .trap ∧
    get_total_collateral c10margin c10cache c10state = .ok 0 :=
  ⟨by decide, by decide⟩

set_option maxRecDepth 40000 in
/-- C10 (amended).  `get_total_collateral` excludes exactly-zero balances
before any oracle access (the step succeeds unchanged for every cache,
including one without the asset's price); but `get_actual_collateral_vec`
skips only empty configuration slots — a zero-balance asset with a
non-empty configuration is priced, and a missing oracle there aborts the
call. -/
theorem collateral_valuation_zero_balance_amended :
    (∀ (margin : Margin) (cache : Cache) (state : State) (total : Int)
       (i : Nat), margin.collateral i = 0 →
       gtc_step margin cache state total i = .ok total) ∧
    (∀ (margin : Margin) (state : State) (cache : Cache) (w : Bool)
       (vec : List Int) (i : Nat),
       (state.collaterals i).isEmptyInfo = false →
       margin.collateral i = 0 →
       get_oracle cache (state.collaterals i).oracleSymbol = none →
       gav_step margin state cache w vec i = .error .trap) := by
  refine ⟨?_, ?_⟩
  · intro margin cache state total i h
    simp only [gtc_step]
    rw [if_pos h]
    rfl
  · intro margin state cache w vec i hinfo hzero ho
    simp only [gav_step]
    rw [if_neg (by simp [hinfo])]
    have hv : get_actual_collateral i margin
        (cache.borrowCache i).supplyMultiplier
        (cache.borrowCache i).borrowMultiplier = .ok 0 := by
      unfold get_actual_collateral calc_actual_collateral
      rw [hzero]
      rw [if_neg (by omega)]
      unfold safe_mul_i80f48
      have hm : fxMulBits 0 (cache.borrowCache i).borrowMultiplier = 0 := by
        simp [fxMulBits, Int.zero_fdiv]
      rw [hm]
      rfl
    rw [hv]
    simp [res_unwrap, ho, option_unwrap, Bind.bind, Except.bind]
    rfl

/-- Witness for C10: at the C10 snapshot, the total-collateral step skips
the zero-balance asset (for the cache without its price), and the
per-asset valuation step aborts on it. -/
theorem collateral_valuation_zero_balance_amended_witness :
    gtc_step c10margin c10cache c10state 0 0 = .ok 0 ∧
    gav_step c10margin c10state c10cache false [] 0 = .error .trap :=
  ⟨collateral_valuation_zero_balance_amended.1 c10margin c10cache c10state
     0 0 rfl,
   collateral_valuation_zero_balance_amended.2 c10margin c10state c10cache
     false [] 0 rfl rfl rfl⟩

end ZoKeeper
